import Mathlib

/-!
deepglint/glog, file I/O for logs (`glog_file.go`).

A shallow embedding of `glog_file.go` and of the parts of the Go standard
library it calls, followed by theorems about the embedded functions.

Go strings are byte sequences.  They are modelled as lists of characters; every
string operation used by the program (concatenation, search for the separator
bytes `.` and `/`, slicing at an index returned by such a search) acts the same
way on the UTF-8 encoding of a string as on its list of characters.
-/

namespace Glog

/-- Go `string`. -/
abbrev GoString := List Char

/-- Conversion of an integer to Go `uint64` (two's complement wrap-around). -/
def toUint64 (x : Int) : Nat := (x % 18446744073709551616).toNat

/-- Conversion of an integer to Go `int64` (two's complement wrap-around). -/
def toInt64 (x : Int) : Int :=
  (x + 9223372036854775808) % 18446744073709551616 - 9223372036854775808

/-! ## `strings` -/

namespace strings

/-- Go `strings.Index(s, substr)`: the index of the first instance of `substr`
in `s`, or `-1` if `substr` is not present in `s`. -/
def Index : GoString → GoString → Int
  | [], substr => if substr = [] then 0 else -1
  | c :: s, substr =>
    if substr <+: c :: s then 0
    else
      let i := Index s substr
      if i ≥ 0 then i + 1 else -1

/-- Go `strings.Join(elems, sep)`. -/
def Join : List GoString → GoString → GoString
  | [], _ => []
  | [e], _ => e
  | e :: es, sep => e ++ sep ++ Join es sep

end strings

/-! ## `path/filepath` (Unix) -/

namespace filepath

/-- Go `filepath.Separator` on Unix. -/
def Separator : Char := '/'

/-- The inner loop of the `..` case of `Clean`, started after `out.w--`:
```go
for out.w > dotdot && !os.IsPathSeparator(out.index(out.w)) {
	out.w--
}
```
The argument and the result are `out.w`. -/
def backLoop (buf : List Char) (dotdot : Nat) : Nat → Nat
  | 0 => 0
  | w + 1 =>
    if w + 1 > dotdot ∧ buf.getD (w + 1) Separator ≠ Separator then backLoop buf dotdot w
    else w + 1

/-- The main loop `for r < n { switch { ... } }` of `Clean`.  `rest` is
`path[r:]`, `buf` is the content `out[0:out.w]` of the output buffer.  Every
iteration consumes at least one byte of `rest`, so `fuel > len(rest)` is enough.
```go
for r < n {
	switch {
	case os.IsPathSeparator(path[r]):
		// empty path element
		r++
	case path[r] == '.' && (r+1 == n || os.IsPathSeparator(path[r+1])):
		// . element
		r++
	case path[r] == '.' && path[r+1] == '.' && (r+2 == n || os.IsPathSeparator(path[r+2])):
		// .. element: remove to last separator
		r += 2
		switch {
		case out.w > dotdot:
			// can backtrack
			out.w--
			for out.w > dotdot && !os.IsPathSeparator(out.index(out.w)) {
				out.w--
			}
		case !rooted:
			// cannot backtrack, but not rooted, so append .. element.
			if out.w > 0 {
				out.append(Separator)
			}
			out.append('.')
			out.append('.')
			dotdot = out.w
		}
	default:
		// real path element.
		// add slash if needed
		if rooted && out.w != 1 || !rooted && out.w != 0 {
			out.append(Separator)
		}
		// copy element
		for ; r < n && !os.IsPathSeparator(path[r]); r++ {
			out.append(path[r])
		}
	}
}
``` -/
def cleanLoop (rooted : Bool) : Nat → List Char → List Char → Nat → List Char
  | 0, _, buf, _ => buf
  | fuel + 1, rest, buf, dotdot =>
    match rest with
    | [] => buf
    | c :: rest1 =>
      if c = Separator then
        cleanLoop rooted fuel rest1 buf dotdot
      else if c = '.' ∧ (rest1 = [] ∨ rest1.head? = some Separator) then
        cleanLoop rooted fuel rest1 buf dotdot
      else if c = '.' ∧ rest1.head? = some '.' ∧
          (rest1.tail = [] ∨ rest1.tail.head? = some Separator) then
        if buf.length > dotdot then
          cleanLoop rooted fuel rest1.tail
            (buf.take (backLoop buf dotdot (buf.length - 1))) dotdot
        else if rooted = false then
          let buf1 := (if buf.length > 0 then buf ++ [Separator] else buf) ++ ['.', '.']
          cleanLoop rooted fuel rest1.tail buf1 buf1.length
        else
          cleanLoop rooted fuel rest1.tail buf dotdot
      else
        let buf1 :=
          if (rooted = true ∧ buf.length ≠ 1) ∨ (rooted = false ∧ buf.length ≠ 0) then
            buf ++ [Separator]
          else buf
        cleanLoop rooted fuel ((c :: rest1).dropWhile (· ≠ Separator))
          (buf1 ++ (c :: rest1).takeWhile (· ≠ Separator)) dotdot

/-- Go `filepath.Clean` on Unix (no volume name, `FromSlash` is the identity).
```go
if path == "" {
	return "."
}
rooted := os.IsPathSeparator(path[0])
n := len(path)
r, dotdot := 0, 0
if rooted {
	out.append(Separator)
	r, dotdot = 1, 1
}
for r < n { ... }
// Turn empty string into "."
if out.w == 0 {
	out.append('.')
}
return FromSlash(out.string())
``` -/
def Clean (path : GoString) : GoString :=
  if path = [] then ['.']
  else
    let rooted : Bool := path.head? = some Separator
    let out :=
      if rooted then cleanLoop rooted (path.length + 1) (path.drop 1) [Separator] 1
      else cleanLoop rooted (path.length + 1) path [] 0
    if out.length = 0 then ['.'] else out

/-- Go `filepath.Join` on Unix.
```go
func join(elem []string) string {
	for i, e := range elem {
		if e != "" {
			return Clean(strings.Join(elem[i:], string(Separator)))
		}
	}
	return ""
}
``` -/
def Join : List GoString → GoString
  | [] => []
  | e :: es => if e ≠ [] then Clean (strings.Join (e :: es) [Separator]) else Join es

/-- Go `filepath.Dir` on Unix.
```go
i := len(path) - 1
for i >= 0 && !os.IsPathSeparator(path[i]) {
	i--
}
dir := Clean(path[:i+1])
return dir
``` -/
def Dir (path : GoString) : GoString :=
  Clean ((path.reverse.dropWhile (· ≠ Separator)).reverse)

/-- A single path element that names an entry: not empty, without separator,
and neither "." nor "..". -/
def plainElem (e : GoString) : Prop :=
  e ≠ [] ∧ Separator ∉ e ∧ e ≠ ['.'] ∧ e ≠ ['.', '.']

/-- The path of the entry `e` of the directory with the cleaned name `dir`:
`e` itself in ".", "/e" in "/", and `dir/e` otherwise. -/
def inDir (dir e : GoString) : GoString :=
  if dir = ['.'] then e else if dir = [Separator] then Separator :: e else dir ++ Separator :: e

/-- The output buffer of `Clean` after a plain element has been appended to
it, as done by the `default` case of the loop. -/
def appendElem (rooted : Bool) (buf e : List Char) : List Char :=
  (if (rooted = true ∧ buf.length ≠ 1) ∨ (rooted = false ∧ buf.length ≠ 0) then
      buf ++ [Separator]
    else buf) ++ e

/-- Invariant of the output buffer of `Clean` on a path that is not rooted: it
does not start with a separator and its first element is not ".". -/
def relBufOk (buf : List Char) : Prop :=
  buf.head? ≠ some Separator ∧ buf ≠ ['.'] ∧ ¬ ['.', Separator] <+: buf

end filepath

/-! ## `fmt` and decimal conversion -/

/-- The decimal conversion loop shared by `fmt` and `time`, writing right to
left in front of `buf`; `fuel` bounds the number of digits (20 for `uint64`).
```go
for u >= 10 {
	i--
	next := u / 10
	buf[i] = byte('0' + u - next*10)
	u = next
}
i--
buf[i] = byte('0' + u)
``` -/
def decimal : Nat → Nat → List Char → List Char
  | 0, u, buf => Char.ofNat ('0'.toNat + u) :: buf
  | fuel + 1, u, buf =>
    if u ≥ 10 then decimal fuel (u / 10) (Char.ofNat ('0'.toNat + (u - u / 10 * 10)) :: buf)
    else Char.ofNat ('0'.toNat + u) :: buf

/-- The two decimal digits of `n`, tens first: the form `MM`, `DD`. -/
def dec2 (n : Nat) : List Char :=
  [Char.ofNat ('0'.toNat + n / 10 % 10), Char.ofNat ('0'.toNat + n % 10)]

/-- The four decimal digits of `n`, thousands first: the form `YYYY`. -/
def dec4 (n : Nat) : List Char :=
  [Char.ofNat ('0'.toNat + n / 1000 % 10), Char.ofNat ('0'.toNat + n / 100 % 10),
    Char.ofNat ('0'.toNat + n / 10 % 10), Char.ofNat ('0'.toNat + n % 10)]

namespace fmt

/-- Go `(*fmt).fmtInteger` for the verb `%d` on a signed value with a width and
without precision, `+`, space or `-` flags: `%4d` is `fmtInteger a 4 false`,
`%02d` is `fmtInteger a 2 true`.
```go
negative := isSigned && int64(u) < 0
if negative {
	u = -u
}
prec := 0
if f.precPresent { ... } else if f.zero && f.widPresent {
	prec = f.wid
	if negative || f.plus || f.space {
		prec-- // leave room for sign
	}
}
... decimal digits of u ...
for i > 0 && prec > len(buf)-i {
	i--
	buf[i] = '0'
}
if negative {
	i--
	buf[i] = '-'
}
oldZero := f.zero
f.zero = false
f.pad(buf[i:])   // left padding with spaces up to f.wid
``` -/
def fmtInteger (a : Int) (wid : Nat) (zero : Bool) : GoString :=
  let negative : Bool := a < 0
  let u : Nat := toUint64 (if negative then -a else a)
  let prec : Nat := if zero then (if negative then wid - 1 else wid) else 0
  let digits := decimal 20 u []
  let digits := List.replicate (prec - digits.length) '0' ++ digits
  let b := if negative then '-' :: digits else digits
  List.replicate (wid - b.length) ' ' ++ b

end fmt
/-! ## `time` -/

namespace time

def secondsPerMinute : Nat := 60
def secondsPerHour : Nat := 60 * secondsPerMinute
def secondsPerDay : Nat := 24 * secondsPerHour
def daysPer400Years : Nat := 365 * 400 + 97
def daysPer100Years : Nat := 365 * 100 + 24
def daysPer4Years : Nat := 365 * 4 + 1

/-- Go `absoluteZeroYear`: the year of the zero of an "absolute" time. -/
def absoluteZeroYear : Int := -292277022399

/-- Go `internalToAbsolute = -absoluteToInternal`, with
`absoluteToInternal = (absoluteZeroYear - internalYear) * 365.2425 * secondsPerDay`. -/
def internalToAbsolute : Int := 9223371966579724800

/-- Go `unixToInternal`: seconds from January 1, year 1 to January 1, 1970. -/
def unixToInternal : Int := (1969 * 365 + 1969 / 4 - 1969 / 100 + 1969 / 400) * 86400

def internalToUnix : Int := -unixToInternal

/-- Go `*time.Location`, reduced to what the program observes of it: the offset
in seconds east of UTC in use at a given Unix time (`l.lookup(sec)`). -/
abbrev Location := Int → Int

/-- Go `time.UTC`. -/
def UTC : Location := fun _ => 0

/-- Go `time.Time`: seconds since January 1, year 1 00:00:00 UTC, nanoseconds
within the second, and the location. -/
structure Time where
  sec : Int
  nsec : Int
  loc : Location

/-- Go `time.Duration`: a count of nanoseconds. -/
abbrev Duration := Int

def Second : Duration := 1000000000
def Hour : Duration := 3600 * Second

/-- Go `time.Unix(sec, nsec)` for `0 ≤ nsec < 1e9`, in location `loc`. -/
def Unix (sec nsec : Int) (loc : Location) : Time :=
  ⟨toInt64 (sec + unixToInternal), nsec, loc⟩

/-- Go `daysBefore`: the number of days in a non-leap year before month `m+1`. -/
def daysBefore : List Nat := [0, 31, 59, 90, 120, 151, 181, 212, 243, 273, 304, 334, 365]

/-- Go `isLeap` (`%` is Go's truncated remainder).
```go
return year%4 == 0 && (year%100 != 0 || year%400 == 0)
``` -/
def isLeap (year : Int) : Bool :=
  Int.tmod year 4 = 0 ∧ (Int.tmod year 100 ≠ 0 ∨ Int.tmod year 400 = 0)

/-- Go `Time.abs`: the time as an absolute time, adjusted by the zone offset.
```go
sec := t.sec + internalToUnix
... _, offset, _, _, _ := l.lookup(sec)
sec += int64(offset)
return uint64(sec + (unixToInternal + internalToAbsolute))
``` -/
def Time.abs (t : Time) : Nat :=
  let sec := toInt64 (t.sec + internalToUnix)
  let sec := toInt64 (sec + t.loc sec)
  toUint64 (sec + (unixToInternal + internalToAbsolute))

/-- The first part of Go `absDate`: the number of years since the absolute
zero year and the day of the year.
```go
// Split into time and day.
d := abs / secondsPerDay
// Account for 400 year cycles.
n := d / daysPer400Years
y := 400 * n
d -= daysPer400Years * n
// Cut off 100-year cycles.
n = d / daysPer100Years
n -= n >> 2
y += 100 * n
d -= daysPer100Years * n
// Cut off 4-year cycles.
n = d / daysPer4Years
y += 4 * n
d -= daysPer4Years * n
// Cut off years within a 4-year cycle.
n = d / 365
n -= n >> 2
y += n
d -= 365 * n
``` -/
def absYday (abs : Nat) : Nat × Nat :=
  let d := abs / secondsPerDay
  let n := d / daysPer400Years
  let y := 400 * n
  let d := d - daysPer400Years * n
  let n := d / daysPer100Years
  let n := n - n / 4
  let y := y + 100 * n
  let d := d - daysPer100Years * n
  let n := d / daysPer4Years
  let y := y + 4 * n
  let d := d - daysPer4Years * n
  let n := d / 365
  let n := n - n / 4
  let y := y + n
  let d := d - 365 * n
  (y, d)

/-- The last part of Go `absDate`, which computes the month and the day of the
month from the year and the day of the year; `monthOf` is the month it
computes.
```go
day = yday
if isLeap(year) {
	// Leap year
	switch {
	case day > 31+29-1:
		// After leap day; pretend it wasn't there.
		day--
	case day == 31+29-1:
		// Leap day.
		month = February
		day = 29
		return
	}
}
// Estimate month on assumption that every month has 31 days.
// The estimate may be too low by at most one month, so adjust.
month = Month(day / 31)
end := int(daysBefore[month+1])
var begin int
if day >= end {
	month++
	begin = end
} else {
	begin = int(daysBefore[month])
}
month++ // because January is 1
day = day - begin + 1
``` -/
def monthOf (year : Int) (yday : Nat) : Nat :=
  if isLeap year = true ∧ yday = 31 + 29 - 1 then 2
  else
    let day := if isLeap year = true ∧ yday > 31 + 29 - 1 then yday - 1 else yday
    let month := day / 31
    let end_ := daysBefore.getD (month + 1) 0
    if day ≥ end_ then month + 1 + 1 else month + 1

/-- The day of the month computed by the last part of Go `absDate` (see
`monthOf` for the code). -/
def dayOf (year : Int) (yday : Nat) : Nat :=
  if isLeap year = true ∧ yday = 31 + 29 - 1 then 29
  else
    let day := if isLeap year = true ∧ yday > 31 + 29 - 1 then yday - 1 else yday
    let month := day / 31
    let end_ := daysBefore.getD (month + 1) 0
    if day ≥ end_ then day - end_ + 1 else day - daysBefore.getD month 0 + 1

/-- Go `absDate(abs, full)`: year, month, day and day of the year; month and
day are computed only when `full` is set.
```go
... y, d as above ...
year = int(int64(y) + absoluteZeroYear)
yday = int(d)
if !full {
	return
}
... month, day as above ...
``` -/
def absDate (abs : Nat) (full : Bool) : Int × Nat × Nat × Nat :=
  let year : Int := toInt64 (toInt64 (absYday abs).1 + absoluteZeroYear)
  let yday := (absYday abs).2
  if full = false then (year, 0, 0, yday)
  else (year, monthOf year yday, dayOf year yday, yday)

/-- Go `absClock`: hour, minute and second within the day.
```go
sec = int(abs % secondsPerDay)
hour = sec / secondsPerHour
sec -= hour * secondsPerHour
min = sec / secondsPerMinute
sec -= min * secondsPerMinute
``` -/
def absClock (abs : Nat) : Nat × Nat × Nat :=
  let sec := abs % secondsPerDay
  let hour := sec / secondsPerHour
  let sec := sec - hour * secondsPerHour
  let min := sec / secondsPerMinute
  let sec := sec - min * secondsPerMinute
  (hour, min, sec)

/-- Go `Time.Year`: `year, _, _, _ := t.date(false)`. -/
def Time.Year (t : Time) : Int := (absDate t.abs false).1

/-- Go `Time.Month`: `_, month, _, _ := t.date(true)`. -/
def Time.Month (t : Time) : Nat := (absDate t.abs true).2.1

/-- Go `Time.Day`: `_, _, day, _ := t.date(true)`. -/
def Time.Day (t : Time) : Nat := (absDate t.abs true).2.2.1

/-- Go `Time.UTC`: the same instant with the location set to UTC. -/
def Time.UTC (t : Time) : Time := { t with loc := time.UTC }

/-- Go `Time.Add`.
```go
t.sec += int64(d / 1e9)
nsec := int32(t.nsec) + int32(d%1e9)
if nsec >= 1e9 {
	t.sec++
	nsec -= 1e9
} else if nsec < 0 {
	t.sec--
	nsec += 1e9
}
t.nsec = nsec
return t
``` -/
def Time.Add (t : Time) (d : Duration) : Time :=
  let sec := toInt64 (t.sec + Int.tdiv d 1000000000)
  let nsec := t.nsec + Int.tmod d 1000000000
  if nsec ≥ 1000000000 then { t with sec := toInt64 (sec + 1), nsec := nsec - 1000000000 }
  else if nsec < 0 then { t with sec := toInt64 (sec - 1), nsec := nsec + 1000000000 }
  else { t with sec := sec, nsec := nsec }

/-- The remainder computed by Go `div(t, d)` when `d` is a multiple of one
second (the case `d%Second == 0` of its switch).
```go
neg := false
nsec := t.nsec
sec := t.sec
if sec < 0 {
	// Operate on absolute value.
	neg = true
	sec = -sec
	nsec = -nsec
	if nsec < 0 {
		nsec += 1e9
		sec-- // sec >= 1 before the -- so safe
	}
}
...
case d%Second == 0:
	d1 := int64(d / Second)
	r = Duration(sec%d1)*Second + Duration(nsec)
...
if neg && r != 0 {
	r = d - r
}
``` -/
def div (t : Time) (d : Duration) : Duration :=
  let neg : Bool := t.sec < 0
  let sec := if neg then (if -t.nsec < 0 then -t.sec - 1 else -t.sec) else t.sec
  let nsec := if neg then (if -t.nsec < 0 then -t.nsec + 1000000000 else -t.nsec) else t.nsec
  let d1 := Int.tdiv d Second
  let r := Int.tmod sec d1 * Second + nsec
  if neg = true ∧ r ≠ 0 then d - r else r

/-- Go `Time.Round(d)` for a duration `d` that is a multiple of one second.
```go
if d <= 0 {
	return t
}
r := div(t, d)
if r+r < d {
	return t.Add(-r)
}
return t.Add(d - r)
``` -/
def Time.Round (t : Time) (d : Duration) : Time :=
  if d ≤ 0 then t
  else
    let r := div t d
    if r + r < d then t.Add (-r) else t.Add (d - r)

/-- Go `appendInt(b, x, width)`: the decimal form of `x`, zero-padded to `width`.
```go
u := uint(x)
if x < 0 {
	b = append(b, '-')
	u = uint(-x)
}
... decimal digits of u in buf[i:] ...
for w := len(buf) - i; w < width; w++ {
	b = append(b, '0')
}
return append(b, buf[i:]...)
``` -/
def appendInt (b : List Char) (x : Int) (width : Nat) : List Char :=
  let b1 := if x < 0 then b ++ ['-'] else b
  let u : Nat := toUint64 (if x < 0 then -x else x)
  let digits := decimal 20 u []
  b1 ++ List.replicate (width - digits.length) '0' ++ digits

/-- Go `t.Format("2006-01-02T15:04:05Z")`, the only layout the program uses.
The layout splits into the chunks `2006` (stdLongYear), `01` (stdZeroMonth),
`02` (stdZeroDay), `15` (stdHour), `04` (stdZeroMinute), `05` (stdZeroSecond);
the other bytes, the final `Z` included, are copied as they are. -/
def Time.Format (t : Time) : GoString :=
  let abs := t.abs
  let date := absDate abs true
  let clock := absClock abs
  let b := appendInt [] date.1 4
  let b := appendInt (b ++ ['-']) date.2.1 2
  let b := appendInt (b ++ ['-']) date.2.2.1 2
  let b := appendInt (b ++ ['T']) clock.1 2
  let b := appendInt (b ++ [':']) clock.2.1 2
  let b := appendInt (b ++ [':']) clock.2.2 2
  b ++ ['Z']

end time

/-! ## `os` -/

namespace os

/-! The flags of `os.OpenFile`, with their values on Linux (`syscall.O_RDONLY`,
`syscall.O_WRONLY`, `syscall.O_RDWR`, `syscall.O_CREAT`, `syscall.O_EXCL`,
`syscall.O_TRUNC`, `syscall.O_APPEND`). -/

def O_RDONLY : Nat := 0x0
def O_WRONLY : Nat := 0x1
def O_RDWR : Nat := 0x2
def O_CREATE : Nat := 0x40
def O_EXCL : Nat := 0x80
def O_TRUNC : Nat := 0x200
def O_APPEND : Nat := 0x400

/-- The calls of package `os` made by `create`, as transitions of a world state
`σ`; `F` is the type of open files (`*os.File`).  A Go `error` is represented by
its message, the result of `Error()`; `none` is the `nil` error.  `OpenFile`
returns either a file or an error, as documented for `os.OpenFile`. -/
structure Sys (σ F : Type) where
  OpenFile : GoString → Nat → Nat → σ → Except GoString F × σ
  Remove : GoString → σ → Option GoString × σ
  Symlink : GoString → GoString → σ → Option GoString × σ

/-- A directory entry of the file system model. -/
inductive Entry where
  | file (ino : Nat)
  | symlink (target : GoString)
  | dir
  deriving DecidableEq

/-- A file system: directory entries by path name (as passed by the caller,
who passes cleaned names), content of regular files by inode number, and the
next unused inode number.  A file that has been unlinked keeps its inode. -/
structure FS where
  entries : List (GoString × Entry)
  data : Nat → List UInt8
  nextIno : Nat

/-- An open regular file: its inode, the flags it was opened with and the
file offset. -/
structure File where
  name : GoString
  ino : Nat
  flag : Nat
  off : Nat

def FS.lookup (fs : FS) (name : GoString) : Option Entry :=
  (fs.entries.find? (fun e => e.1 = name)).map (·.2)

def FS.erase (fs : FS) (name : GoString) : FS :=
  { fs with entries := fs.entries.filter (fun e => e.1 ≠ name) }

def FS.insert (fs : FS) (name : GoString) (e : Entry) : FS :=
  { fs with entries := (name, e) :: (fs.erase name).entries }

/-- Follow symbolic links from `name`, at most `fuel` of them (`none`: too many
levels).  A relative target is taken from the directory of the link. -/
def FS.resolve (fs : FS) : Nat → GoString → Option GoString
  | 0, _ => none
  | fuel + 1, name =>
    match fs.lookup name with
    | some (.symlink target) =>
      fs.resolve fuel
        (if target.head? = some filepath.Separator then filepath.Clean target
         else filepath.Join [filepath.Dir name, target])
    | _ => some name

def pathError (op name msg : GoString) : GoString :=
  op ++ " ".toList ++ name ++ ": ".toList ++ msg

/-- Model of `os.OpenFile(name, flag, perm)` (open(2)): symbolic links are
followed; an existing regular file is opened, and emptied only under `O_TRUNC`;
a missing file is created, empty, only under `O_CREATE` and when its directory
exists.  Permissions are not modelled. -/
def FS.OpenFile (name : GoString) (flag _perm : Nat) (fs : FS) : Except GoString File × FS :=
  match fs.resolve 41 name with
  | none => (.error (pathError "open".toList name "too many levels of symbolic links".toList), fs)
  | some target =>
    match fs.lookup target with
    | some (.file ino) =>
      if flag &&& O_CREATE ≠ 0 ∧ flag &&& O_EXCL ≠ 0 then
        (.error (pathError "open".toList name "file exists".toList), fs)
      else if flag &&& O_TRUNC ≠ 0 ∧ flag &&& 3 ≠ O_RDONLY then
        (.ok ⟨name, ino, flag, 0⟩, { fs with data := Function.update fs.data ino [] })
      else (.ok ⟨name, ino, flag, 0⟩, fs)
    | some _ => (.error (pathError "open".toList name "is a directory".toList), fs)
    | none =>
      if flag &&& O_CREATE ≠ 0 ∧ fs.lookup (filepath.Dir target) = some .dir then
        (.ok ⟨name, fs.nextIno, flag, 0⟩,
          ⟨(fs.insert target (.file fs.nextIno)).entries,
            Function.update fs.data fs.nextIno [], fs.nextIno + 1⟩)
      else (.error (pathError "open".toList name "no such file or directory".toList), fs)

/-- Model of `os.Remove(name)` (unlink(2), rmdir(2)): the entry itself is
removed, a symbolic link is not followed, a directory must be empty. -/
def FS.Remove (name : GoString) (fs : FS) : Option GoString × FS :=
  match fs.lookup name with
  | none => (some (pathError "remove".toList name "no such file or directory".toList), fs)
  | some .dir =>
    if fs.entries.any (fun e => e.1 ≠ name ∧ filepath.Dir e.1 = name) then
      (some (pathError "remove".toList name "directory not empty".toList), fs)
    else (none, fs.erase name)
  | some _ => (none, fs.erase name)

/-- Model of `os.Symlink(oldname, newname)` (symlink(2)): `newname` must not
exist and its directory must exist; `oldname` is stored as it is. -/
def FS.Symlink (oldname newname : GoString) (fs : FS) : Option GoString × FS :=
  if fs.lookup newname ≠ none then
    (some ("symlink ".toList ++ oldname ++ " ".toList ++ newname ++ ": file exists".toList), fs)
  else if fs.lookup (filepath.Dir newname) ≠ some .dir then
    (some ("symlink ".toList ++ oldname ++ " ".toList ++ newname
      ++ ": no such file or directory".toList), fs)
  else (none, fs.insert newname (.symlink oldname))

/-- Model of `(*os.File).Write(b)` (write(2)): under `O_APPEND` the bytes go to
the end of the file, otherwise to the file offset. -/
def File.Write (f : File) (b : List UInt8) (fs : FS) : (Nat × Option GoString) × File × FS :=
  if f.flag &&& 3 = O_RDONLY then
    ((0, some (pathError "write".toList f.name "bad file descriptor".toList)), f, fs)
  else if f.flag &&& O_APPEND ≠ 0 then
    ((b.length, none), { f with off := (fs.data f.ino).length + b.length },
      { fs with data := Function.update fs.data f.ino (fs.data f.ino ++ b) })
  else
    let old := fs.data f.ino
    let pad := List.replicate (f.off - old.length) (0 : UInt8)
    let new := (old ++ pad).take f.off ++ b ++ old.drop (f.off + b.length)
    ((b.length, none), { f with off := f.off + b.length },
      { fs with data := Function.update fs.data f.ino new })

/-- The file system model as an instance of the interface used by `create`. -/
def posix : Sys FS File := ⟨FS.OpenFile, FS.Remove, FS.Symlink⟩

end os

/-! ## Process state read by the file code -/

/-- What `logName` and `create` read from the rest of the process: the value of
the flag `*logDir`, the switch `logging.debug`, the variable `program`, and the
wall clock.  `clock k` is the reading (seconds and nanoseconds since the Unix
epoch) returned by the `k`-th call of `time.Now()` made during one call of
`logName`, `local_` is the process's local time zone. -/
structure Env where
  logDir : GoString
  debug : Bool
  program : GoString
  clock : Nat → Int × Int
  local_ : time.Location

/-- Go `time.Now()`: the `k`-th wall clock reading, in the local location. -/
def Env.Now (env : Env) (k : Nat) : time.Time :=
  time.Unix (env.clock k).1 (env.clock k).2 env.local_

/-- The calendar date of `t` in its location, with the time of day
00:00:00 and the letter Z, in the form `YYYY-MM-DDT00:00:00Z`. -/
def dateZ (t : time.Time) : GoString :=
  dec4 t.Year.toNat ++ "-".toList ++ dec2 t.Month ++ "-".toList ++ dec2 t.Day
    ++ "T00:00:00Z".toList

/-- The calendar date of `t` in its location, in the form `YYYY-MM-DD`. -/
def datePart (t : time.Time) : GoString :=
  dec4 t.Year.toNat ++ "-".toList ++ dec2 t.Month ++ "-".toList ++ dec2 t.Day

/-- The time of day of `t` in its location (Go `t.Clock()`, which is
`absClock(t.abs())`), in the form `HH:MM:SS`. -/
def clockPart (t : time.Time) : GoString :=
  dec2 (time.absClock t.abs).1 ++ ":".toList ++ dec2 (time.absClock t.abs).2.1 ++ ":".toList
    ++ dec2 (time.absClock t.abs).2.2

/-! ## File names -/

/-- Go `logName`.  The results `name` and `link` are named results, zero on
entry; the expression for the debug link reads `name` before the `return`
assigns it.
```go
func logName(tag string, t time.Time) (name, link string) {
	if !logging.debug {
		return fmt.Sprintf("LOG.%4d-%02d-%02dT00:00:00Z", time.Now().Year(), time.Now().Month(), time.Now().Day()), "LOG.IWEF." + time.Now().Round(time.Hour*24).Format("2006-01-02T15:04:05Z")
	} else {
		return "DEBUGLOGS." + tag, "DEBUG" + name + "." + program
	}
}
``` -/
def logName (env : Env) (tag : GoString) (_t : time.Time) : GoString × GoString :=
  let name : GoString := []
  if env.debug = false then
    ("LOG.".toList ++ fmt.fmtInteger (env.Now 0).Year 4 false ++ "-".toList
        ++ fmt.fmtInteger (env.Now 1).Month 2 true ++ "-".toList
        ++ fmt.fmtInteger (env.Now 2).Day 2 true ++ "T00:00:00Z".toList,
      "LOG.IWEF.".toList ++ ((env.Now 3).Round (time.Hour * 24)).Format)
  else
    ("DEBUGLOGS.".toList ++ tag, "DEBUG".toList ++ name ++ ".".toList ++ env.program)

/-! ## File creation -/

/-- The package state written by `create`: the variable `currentLogFile` and
the world outside the process. -/
structure State (σ : Type) where
  currentLogFile : GoString
  world : σ

/-- The results `(f, filename, err)` of `create`; `none` is `nil`. -/
structure Result (F : Type) where
  f : Option F
  filename : GoString
  err : Option GoString

/-- Go `create`.  `fmt.Errorf("log: cannot create log: %v", err)` formats an
error operand with its `Error()` message.
```go
func create(tag string, t time.Time) (f *os.File, filename string, err error) {
	name, link := logName(tag, t)
	fname := filepath.Join(*logDir, name)
	currentLogFile = fname
	fd, err := os.OpenFile(fname, os.O_RDWR|os.O_CREATE|os.O_APPEND, 0666)
	if err == nil {
		if logging.debug {
			symlink := filepath.Join(*logDir, link)
			os.Remove(symlink)        // ignore err
			os.Symlink(name, symlink) // ignore err
		}
		return fd, fname, nil
	}
	return nil, "", fmt.Errorf("log: cannot create log: %v", err)
}
``` -/
def create {σ F : Type} (sys : os.Sys σ F) (env : Env) (tag : GoString) (t : time.Time)
    (s : State σ) : Result F × State σ :=
  let name := (logName env tag t).1
  let link := (logName env tag t).2
  let fname := filepath.Join [env.logDir, name]
  let s : State σ := { s with currentLogFile := fname }
  match sys.OpenFile fname (os.O_RDWR ||| os.O_CREATE ||| os.O_APPEND) 0o666 s.world with
  | (.ok fd, w) =>
    if env.debug = true then
      let symlink := filepath.Join [env.logDir, link]
      let w := (sys.Remove symlink w).2
      let w := (sys.Symlink name symlink w).2
      (⟨some fd, fname, none⟩, { s with world := w })
    else
      (⟨some fd, fname, none⟩, { s with world := w })
  | (.error err, w) =>
    (⟨none, [], some ("log: cannot create log: ".toList ++ err)⟩, { s with world := w })

/-! ## Directory list -/

/-- Go `createLogDirs`, with the flag value `*logDir` and the package variable
`logDirs` passed explicitly; the result is the new value of `logDirs`.
```go
func createLogDirs() {
	if *logDir != "" {
		logDirs = append(logDirs, *logDir)
	}
	logDirs = append(logDirs, "/tmp/")
}
``` -/
def createLogDirs (logDir : GoString) (logDirs : List GoString) : List GoString :=
  let logDirs := if logDir ≠ "".toList then logDirs ++ [logDir] else logDirs
  logDirs ++ ["/tmp/".toList]

/-! ## Host name -/

/-- Go `shortHostname`.
```go
func shortHostname(hostname string) string {
	if i := strings.Index(hostname, "."); i >= 0 {
		return hostname[:i]
	}
	return hostname
}
``` -/
def shortHostname (hostname : GoString) : GoString :=
  let i := strings.Index hostname ".".toList
  if i ≥ 0 then hostname.take i.toNat else hostname

/-! ## Example inputs -/

/-- A process with a clock stopped at one reading, 2024-03-05 13:00:00.000000005
UTC, in a time zone with a fixed offset. -/
def envExample (logDir : GoString) (debug : Bool) (offset : Int) : Env :=
  ⟨logDir, debug, "prog".toList, fun _ => (1709643600, 5), fun _ => offset⟩

/-- A file system holding the directories "/tmp" and "." only. -/
def fsExample : os.FS := ⟨[("/tmp".toList, .dir), (".".toList, .dir)], fun _ => [], 0⟩

/-! ## `filepath.Clean`: joining a directory and a plain element -/

namespace filepath

theorem cleanLoop_nil (rooted : Bool) (fuel : Nat) (buf : List Char) (dd : Nat) :
    cleanLoop rooted fuel [] buf dd = buf := by
  cases fuel <;> rfl

theorem takeWhile_notSep_of_not_mem (e : List Char) (h : Separator ∉ e) :
    e.takeWhile (· ≠ Separator) = e := by
  rw [List.takeWhile_eq_self_iff]
  intro x hx
  simp only [ne_eq, decide_not, Bool.not_eq_true', decide_eq_false_iff_not]
  intro hxe
  exact h (hxe ▸ hx)

theorem dropWhile_notSep_of_not_mem (e : List Char) (h : Separator ∉ e) :
    e.dropWhile (· ≠ Separator) = [] := by
  rw [List.dropWhile_eq_nil_iff]
  intro x hx
  simp only [ne_eq, decide_not, Bool.not_eq_true', decide_eq_false_iff_not]
  intro hxe
  exact h (hxe ▸ hx)

theorem takeWhile_append_sep (l m : List Char) :
    (l ++ Separator :: m).takeWhile (· ≠ Separator) = l.takeWhile (· ≠ Separator) := by
  induction l with
  | nil => simp
  | cons a l ih =>
    by_cases ha : a = Separator
    · simp [ha]
    · simp only [List.cons_append, List.takeWhile_cons, ne_eq, ha, not_false_eq_true,
        decide_True, if_true, ih]

theorem dropWhile_append_sep (l m : List Char) :
    (l ++ Separator :: m).dropWhile (· ≠ Separator)
      = l.dropWhile (· ≠ Separator) ++ Separator :: m := by
  induction l with
  | nil => simp
  | cons a l ih =>
    by_cases ha : a = Separator
    · simp [ha]
    · simp only [List.cons_append, List.dropWhile_cons, ne_eq, ha, not_false_eq_true,
        decide_True, if_true, ih]

theorem cleanLoop_plain (rooted : Bool) (e : List Char) (he : plainElem e) (fuel : Nat)
    (hf : e.length < fuel) (buf : List Char) (dd : Nat) :
    cleanLoop rooted fuel e buf dd = appendElem rooted buf e := by
  obtain ⟨hne, hsep, hdot, hdotdot⟩ := he
  cases fuel with
  | zero => omega
  | succ fuel =>
    cases e with
    | nil => exact absurd rfl hne
    | cons c e1 =>
      have hc : c ≠ Separator := fun h => hsep (h ▸ List.mem_cons_self _ _)
      have he1 : Separator ∉ e1 := fun h => hsep (List.mem_cons_of_mem _ h)
      have h2 : ¬ (c = '.' ∧ (e1 = [] ∨ e1.head? = some Separator)) := by
        rintro ⟨h1, h2 | h2⟩
        · exact hdot (by rw [h1, h2])
        · cases e1 with
          | nil => simp at h2
          | cons a e2 =>
            simp only [List.head?_cons, Option.some.injEq] at h2
            exact he1 (h2 ▸ List.mem_cons_self _ _)
      have h3 : ¬ (c = '.' ∧ e1.head? = some '.' ∧
          (e1.tail = [] ∨ e1.tail.head? = some Separator)) := by
        rintro ⟨h1, h3, h4⟩
        cases e1 with
        | nil => simp at h3
        | cons a e2 =>
          simp only [List.head?_cons, Option.some.injEq] at h3
          simp only [List.tail_cons] at h4
          rcases h4 with h4 | h4
          · exact hdotdot (by rw [h1, h3, h4])
          · cases e2 with
            | nil => simp at h4
            | cons b e3 =>
              simp only [List.head?_cons, Option.some.injEq] at h4
              exact he1 (List.mem_cons_of_mem _ (h4 ▸ List.mem_cons_self _ _))
      simp only [cleanLoop, hc, if_false, h2, h3]
      rw [dropWhile_notSep_of_not_mem _ hsep, takeWhile_notSep_of_not_mem _ hsep, cleanLoop_nil]
      rfl

theorem cleanLoop_append_elem (rooted : Bool) (e : List Char) (he : plainElem e) :
    ∀ (fuel2 fuel1 : Nat) (rest buf : List Char) (dd : Nat),
      rest.length < fuel2 → (rest ++ Separator :: e).length < fuel1 →
      cleanLoop rooted fuel1 (rest ++ Separator :: e) buf dd
        = appendElem rooted (cleanLoop rooted fuel2 rest buf dd) e := by
  intro fuel2
  induction fuel2 with
  | zero => intro _ _ _ _ h; omega
  | succ f ih =>
    intro fuel1 rest buf dd h2 h1
    cases fuel1 with
    | zero => omega
    | succ g =>
      cases rest with
      | nil =>
        simp only [List.nil_append, List.length_cons] at h1
        rw [cleanLoop_nil]
        simp only [cleanLoop, if_true]
        exact cleanLoop_plain rooted e he g (by omega) buf dd
      | cons c rest1 =>
        simp only [List.length_cons, List.cons_append, List.length_append] at h1 h2
        have hlen : (rest1 ++ Separator :: e).length < g := by
          simp only [List.length_append, List.length_cons]; omega
        have c2 : (rest1 ++ Separator :: e = [] ∨ (rest1 ++ Separator :: e).head? = some Separator)
            ↔ (rest1 = [] ∨ rest1.head? = some Separator) := by
          cases rest1 <;> simp
        have c3 : ((rest1 ++ Separator :: e).head? = some '.' ∧
            ((rest1 ++ Separator :: e).tail = [] ∨
              (rest1 ++ Separator :: e).tail.head? = some Separator))
            ↔ (rest1.head? = some '.' ∧ (rest1.tail = [] ∨ rest1.tail.head? = some Separator)) := by
          cases rest1 with
          | nil => simp [Separator]
          | cons a r => cases r <;> simp
        have t3 : rest1.head? = some '.' →
            (rest1 ++ Separator :: e).tail = rest1.tail ++ Separator :: e := by
          cases rest1 <;> simp
        simp only [List.cons_append, cleanLoop]
        by_cases h_1 : c = Separator
        · simp only [h_1, if_true]
          exact ih g rest1 buf dd (by omega) hlen
        · simp only [h_1, if_false]
          by_cases h_2 : c = '.' ∧ (rest1 = [] ∨ rest1.head? = some Separator)
          · rw [if_pos (And.intro h_2.1 (c2.mpr h_2.2)), if_pos h_2]
            exact ih g rest1 buf dd (by omega) hlen
          · rw [if_neg (fun h => h_2 ⟨h.1, c2.mp h.2⟩), if_neg h_2]
            by_cases h_3 : c = '.' ∧ rest1.head? = some '.' ∧
                (rest1.tail = [] ∨ rest1.tail.head? = some Separator)
            · rw [if_pos (And.intro h_3.1 (c3.mpr h_3.2)), if_pos h_3, t3 h_3.2.1]
              have hl3 : rest1.tail.length < f := by
                simp only [List.length_tail]; omega
              have hl3g : (rest1.tail ++ Separator :: e).length < g := by
                simp only [List.length_append, List.length_cons, List.length_tail]; omega
              by_cases hb : buf.length > dd
              · simp only [hb, if_true]
                exact ih g _ _ dd hl3 hl3g
              · simp only [hb, if_false]
                cases rooted with
                | false =>
                  simp only [if_true]
                  exact ih g _ _ _ hl3 hl3g
                | true =>
                  simp only [reduceCtorEq, if_false]
                  exact ih g _ _ dd hl3 hl3g
            · rw [if_neg (fun h => h_3 ⟨h.1, c3.mp h.2⟩), if_neg h_3]
              have e1 : (c :: (rest1 ++ Separator :: e)) = (c :: rest1) ++ Separator :: e := rfl
              rw [e1, takeWhile_append_sep, dropWhile_append_sep]
              have hd : ((c :: rest1).dropWhile (· ≠ Separator)).length < f := by
                have := List.Sublist.length_le (List.dropWhile_sublist (· ≠ Separator)
                  (l := c :: rest1))
                simp only [List.dropWhile_cons, ne_eq, h_1, not_false_eq_true, decide_True,
                  if_true] at this ⊢
                have := List.Sublist.length_le (List.dropWhile_sublist (· ≠ Separator)
                  (l := rest1))
                simp only [ne_eq, decide_not] at this ⊢
                omega
              have hdg : ((c :: rest1).dropWhile (· ≠ Separator) ++ Separator :: e).length < g := by
                simp only [List.length_append, List.length_cons]
                simp only [List.dropWhile_cons, ne_eq, h_1, not_false_eq_true, decide_True,
                  if_true]
                have := List.Sublist.length_le (List.dropWhile_sublist (· ≠ Separator)
                  (l := rest1))
                simp only [ne_eq, decide_not] at this ⊢
                omega
              exact ih g _ _ dd hd hdg

end filepath
namespace filepath

theorem backLoop_spec (buf : List Char) (dd : Nat) :
    ∀ w, dd ≤ w → dd ≤ backLoop buf dd w ∧ backLoop buf dd w ≤ w ∧
      (backLoop buf dd w = dd ∨ buf.getD (backLoop buf dd w) Separator = Separator) := by
  intro w
  induction w with
  | zero =>
    intro h
    have : dd = 0 := by omega
    subst this
    simp [backLoop]
  | succ w ih =>
    intro h
    unfold backLoop
    by_cases hc : w + 1 > dd ∧ buf.getD (w + 1) Separator ≠ Separator
    · rw [if_pos hc]
      have := ih (by omega)
      exact ⟨this.1, by omega, this.2.2⟩
    · rw [if_neg hc]
      refine ⟨h, le_refl _, ?_⟩
      by_cases h1 : w + 1 > dd
      · right
        by_contra h2
        exact hc ⟨h1, h2⟩
      · left; omega

theorem head?_take_pos (buf : List Char) (w : Nat) (hw : 0 < w) :
    (buf.take w).head? = buf.head? := by
  cases buf with
  | nil => simp
  | cons a l =>
    cases w with
    | zero => omega
    | succ w => simp

theorem cleanLoop_rooted_head (fuel : Nat) :
    ∀ (rest buf : List Char), buf.head? = some Separator →
      (cleanLoop true fuel rest buf 1).head? = some Separator := by
  induction fuel with
  | zero => intro rest buf h; simpa [cleanLoop] using h
  | succ f ih =>
    intro rest buf h
    cases rest with
    | nil => simpa [cleanLoop] using h
    | cons c rest1 =>
      have hlen : 1 ≤ buf.length := by
        cases buf with
        | nil => simp at h
        | cons a l => simp
      simp only [cleanLoop]
      split
      · exact ih _ _ h
      · split
        · exact ih _ _ h
        · split
          · split
            · apply ih
              have hb := backLoop_spec buf 1 (buf.length - 1) (by omega)
              rw [head?_take_pos _ _ (by omega)]
              exact h
            · simp only [reduceCtorEq, if_false]
              exact ih _ _ h
          · apply ih
            cases buf with
            | nil => simp at h
            | cons a l =>
              simp only [List.head?_cons] at h
              split <;> simpa using h

theorem relBufOk_take (buf : List Char) (dd w : Nat) (hok : relBufOk buf)
    (hdd : dd = 0 ∨ 2 ≤ dd) (hw : w < buf.length)
    (hb : w = dd ∨ buf.getD w Separator = Separator) : relBufOk (buf.take w) := by
  obtain ⟨h1, h2, h3⟩ := hok
  refine ⟨?_, ?_, ?_⟩
  · cases w with
    | zero => simp
    | succ w => rw [head?_take_pos _ _ (by omega)]; exact h1
  · intro ht
    cases buf with
    | nil => simp at hw
    | cons a l =>
      cases w with
      | zero => simp at ht
      | succ w =>
        cases l with
        | nil => simp at hw
        | cons b l2 =>
          cases w with
          | zero =>
            simp only [List.take_succ_cons, List.take_zero, List.cons.injEq, and_true] at ht
            rcases hb with hb | hb
            · omega
            · simp only [List.getD_cons_succ, List.getD_cons_zero] at hb
              exact h3 (by rw [ht, hb]; simp)
          | succ w => simp at ht
  · intro ht
    exact h3 (ht.trans (List.take_prefix _ _))

theorem relBufOk_append (buf x : List Char) (hok : relBufOk buf) (hne : buf ≠ []) :
    relBufOk (buf ++ Separator :: x) := by
  obtain ⟨h1, h2, h3⟩ := hok
  cases buf with
  | nil => exact absurd rfl hne
  | cons a l =>
    refine ⟨by simpa using h1, by simp, ?_⟩
    intro ht
    cases l with
    | nil =>
      simp only [List.singleton_append, List.cons_prefix_cons, List.nil_prefix, and_true] at ht
      exact h2 (by rw [ht])
    | cons b l2 =>
      apply h3
      simp only [List.cons_append, List.cons_prefix_cons, List.nil_prefix, and_true] at ht ⊢
      exact ht

theorem cleanLoop_rel_ok (fuel : Nat) :
    ∀ (rest buf : List Char) (dd : Nat), relBufOk buf → dd ≤ buf.length → (dd = 0 ∨ 2 ≤ dd) →
      relBufOk (cleanLoop false fuel rest buf dd) := by
  induction fuel with
  | zero => intro rest buf dd h _ _; simpa [cleanLoop] using h
  | succ f ih =>
    intro rest buf dd h hle hdd
    cases rest with
    | nil => simpa [cleanLoop] using h
    | cons c rest1 =>
      simp only [cleanLoop]
      by_cases h_1 : c = Separator
      · rw [if_pos h_1]; exact ih _ _ _ h hle hdd
      · rw [if_neg h_1]
        by_cases h_2 : c = '.' ∧ (rest1 = [] ∨ rest1.head? = some Separator)
        · rw [if_pos h_2]; exact ih _ _ _ h hle hdd
        · rw [if_neg h_2]
          by_cases h_3 : c = '.' ∧ rest1.head? = some '.' ∧
              (rest1.tail = [] ∨ rest1.tail.head? = some Separator)
          · rw [if_pos h_3]
            by_cases hb : buf.length > dd
            · rw [if_pos hb]
              have hs := backLoop_spec buf dd (buf.length - 1) (by omega)
              apply ih
              · exact relBufOk_take buf dd _ h hdd (by omega) hs.2.2
              · rw [List.length_take]; omega
              · exact hdd
            · rw [if_neg hb]
              simp only [if_true]
              apply ih
              · by_cases hz : buf.length > 0
                · rw [if_pos hz]
                  have hne : buf ≠ [] := by
                    intro h0; rw [h0] at hz; simp at hz
                  have := relBufOk_append buf ['.', '.'] h hne
                  simpa using this
                · rw [if_neg hz]
                  have h0 : buf = [] := by
                    cases buf with
                    | nil => rfl
                    | cons a l => simp at hz
                  subst h0
                  refine ⟨by simp [Separator], by simp, ?_⟩
                  simp [Separator]
              · exact le_refl _
              · right
                simp only [List.length_append, List.length_cons, List.length_nil]
                omega
          · rw [if_neg h_3]
            simp only [reduceCtorEq, false_and, false_or, true_and]
            apply ih
            · simp only [List.takeWhile_cons, ne_eq, h_1, not_false_eq_true, decide_True, if_true]
              by_cases hz : buf.length ≠ 0
              · rw [if_pos hz]
                have hne : buf ≠ [] := by
                  intro h0; rw [h0] at hz; simp at hz
                have := relBufOk_append buf
                  (c :: List.takeWhile (fun x => decide (x ≠ Separator)) rest1) h hne
                simpa using this
              · rw [if_neg hz]
                have h0 : buf = [] := by
                  cases buf with
                  | nil => rfl
                  | cons a l => simp at hz
                subst h0
                refine ⟨by simpa using h_1, ?_, ?_⟩
                · intro ht
                  simp only [List.nil_append, List.cons.injEq] at ht
                  apply h_2
                  refine ⟨ht.1, ?_⟩
                  cases rest1 with
                  | nil => left; rfl
                  | cons a r =>
                    right
                    by_cases ha : a = Separator
                    · simp [ha]
                    · simp [List.takeWhile_cons, ha] at ht
                · intro ht
                  simp only [List.nil_append, List.cons_prefix_cons] at ht
                  have hm : Separator ∈ List.takeWhile (fun x => decide (x ≠ Separator)) rest1 := by
                    have := ht.2.subset (List.mem_cons_self _ _)
                    exact this
                  have := List.mem_takeWhile_imp hm
                  simp at this
            · split <;> simp <;> omega
            · exact hdd

end filepath
namespace filepath

theorem relBufOk_nil : relBufOk [] := by
  refine ⟨by simp, by simp, ?_⟩
  simp

theorem Clean_plain (e : List Char) (he : plainElem e) : Clean e = e := by
  have hne := he.1
  have hsep := he.2.1
  have hhead : e.head? ≠ some Separator := by
    cases e with
    | nil => simp
    | cons a l =>
      simp only [List.head?_cons, ne_eq, Option.some.injEq]
      intro h
      exact hsep (h ▸ List.mem_cons_self _ _)
  unfold Clean
  rw [if_neg hne]
  simp only [hhead, decide_False, Bool.false_eq_true, if_false]
  rw [cleanLoop_plain false e he _ (by omega)]
  simp only [appendElem, List.length_nil, ne_eq, not_true_eq_false, and_false, or_false,
    reduceCtorEq, false_and, if_false, List.nil_append]
  rw [if_neg]
  intro h
  exact hne (List.length_eq_zero.mp h)

theorem Join_dir_plain (dir e : List Char) (hd : dir ≠ []) (he : plainElem e) :
    Join [dir, e] = inDir (Clean dir) e := by
  have hne := he.1
  have hpath : dir ++ Separator :: e ≠ [] := by simp
  have hjoin : Join [dir, e] = Clean (dir ++ Separator :: e) := by
    simp [Join, hd, strings.Join]
  rw [hjoin]
  cases dir with
  | nil => exact absurd rfl hd
  | cons a d1 =>
    by_cases ha : a = Separator
    · subst ha
      have hB := cleanLoop_rooted_head ((Separator :: d1).length + 1) d1 [Separator] rfl
      have happ := cleanLoop_append_elem true e he ((Separator :: d1).length + 1)
        ((Separator :: d1 ++ Separator :: e).length + 1) d1 [Separator] 1
        (by simp only [List.length_cons]; omega)
        (by simp only [List.length_cons, List.length_append, List.cons_append]; omega)
      unfold Clean
      rw [if_neg hpath, if_neg hd]
      simp only [List.cons_append, List.head?_cons, decide_True, if_true, List.drop_succ_cons,
        List.drop_zero]
      simp only [List.cons_append] at happ
      rw [happ]
      generalize cleanLoop true ((Separator :: d1).length + 1) d1 [Separator] 1 = B at hB ⊢
      cases B with
      | nil => simp at hB
      | cons b B1 =>
        simp only [List.head?_cons, Option.some.injEq] at hB
        subst hB
        have h1 : (appendElem true (Separator :: B1) e).length ≠ 0 := by
          simp only [appendElem, List.length_append, ne_eq]
          have : e.length ≠ 0 := fun h => hne (List.length_eq_zero.mp h)
          omega
        rw [if_neg h1]
        cases B1 with
        | nil => simp [inDir, appendElem, Separator]
        | cons c B2 => simp [inDir, appendElem, Separator]
    · have hhead : ¬ ((a :: d1).head? = some Separator) := by simpa using ha
      have hhead2 : ¬ ((a :: d1 ++ Separator :: e).head? = some Separator) := by simpa using ha
      have hB := cleanLoop_rel_ok ((a :: d1).length + 1) (a :: d1) [] 0 relBufOk_nil
        (by simp) (Or.inl rfl)
      have happ := cleanLoop_append_elem false e he ((a :: d1).length + 1)
        ((a :: d1 ++ Separator :: e).length + 1) (a :: d1) [] 0
        (by simp only [List.length_cons]; omega)
        (by simp only [List.length_cons, List.length_append, List.cons_append]; omega)
      unfold Clean
      rw [if_neg hpath, if_neg hd]
      simp only [hhead, hhead2, decide_False, Bool.false_eq_true, if_false]
      rw [happ]
      generalize cleanLoop false ((a :: d1).length + 1) (a :: d1) [] 0 = B at hB ⊢
      obtain ⟨hB1, hB2, hB3⟩ := hB
      cases B with
      | nil =>
        have h1 : (appendElem false [] e).length ≠ 0 := by
          simp only [appendElem, List.length_append, ne_eq]
          have : e.length ≠ 0 := fun h => hne (List.length_eq_zero.mp h)
          omega
        rw [if_neg h1]
        simp [inDir, appendElem]
      | cons b B1 =>
        have h1 : (appendElem false (b :: B1) e).length ≠ 0 := by
          simp [appendElem]
        rw [if_neg h1]
        have hb1 : ¬ (b = '.' ∧ B1 = []) := by
          rintro ⟨h1, h2⟩
          exact hB2 (by rw [h1, h2])
        have hb2 : ¬ (b = Separator ∧ B1 = []) := by
          rintro ⟨h1, _⟩
          exact hB1 (by rw [h1]; rfl)
        simp [inDir, appendElem, hb1, hb2]

end filepath

theorem toInt64_id (x : Int) (h1 : -9223372036854775808 ≤ x) (h2 : x < 9223372036854775808) :
    toInt64 x = x := by
  unfold toInt64
  omega

theorem toUint64_id (x : Int) (h1 : 0 ≤ x) (h2 : x < 18446744073709551616) :
    (toUint64 x : Int) = x := by
  unfold toUint64
  omega

namespace time

theorem isLeap_iff (year : Int) :
    isLeap year = true ↔ (year % 4 = 0 ∧ (year % 100 ≠ 0 ∨ year % 400 = 0)) := by
  have h4 : Int.tmod year 4 = 0 ↔ year % 4 = 0 := by
    rw [← Int.dvd_iff_tmod_eq_zero, Int.dvd_iff_emod_eq_zero]
  have h100 : Int.tmod year 100 = 0 ↔ year % 100 = 0 := by
    rw [← Int.dvd_iff_tmod_eq_zero, Int.dvd_iff_emod_eq_zero]
  have h400 : Int.tmod year 400 = 0 ↔ year % 400 = 0 := by
    rw [← Int.dvd_iff_tmod_eq_zero, Int.dvd_iff_emod_eq_zero]
  unfold isLeap
  simp only [decide_eq_true_eq, ne_eq, h4, h100, h400]

theorem cut400 (d0 n1 d1 : Nat) (e1 : n1 = d0 / 146097) (e2 : d1 = d0 - 146097 * n1) :
    d1 ≤ 146096 ∧ d0 = 146097 * n1 + d1 := by
  omega

theorem cut100 (d1 n2 d2 : Nat) (h : d1 ≤ 146096) (e3 : n2 = d1 / 36524 - d1 / 36524 / 4)
    (e4 : d2 = d1 - 36524 * n2) :
    d2 ≤ 36524 ∧ n2 ≤ 3 ∧ (d2 = 36524 → n2 = 3) ∧ d1 = 36524 * n2 + d2 := by
  have : d1 / 36524 ≤ 4 := by omega
  omega

theorem cut4 (d2 n3 d3 : Nat) (h : d2 ≤ 36524) (e5 : n3 = d2 / 1461) (e6 : d3 = d2 - 1461 * n3) :
    d3 ≤ 1460 ∧ n3 ≤ 24 ∧ d2 = 1461 * n3 + d3 := by
  omega

theorem cut1 (d3 n4 d4 : Nat) (h : d3 ≤ 1460) (e7 : n4 = d3 / 365 - d3 / 365 / 4)
    (e8 : d4 = d3 - 365 * n4) :
    d4 ≤ 365 ∧ n4 ≤ 3 ∧ (d4 = 365 → n4 = 3) ∧ d3 = 365 * n4 + d4 := by
  have : d3 / 365 ≤ 4 := by omega
  omega

theorem leap_of_last_day (K : Int) (n2 n3 : Nat) (h2 : n2 ≤ 3) (h3 : n3 ≤ 24)
    (h : n3 = 24 → n2 = 3) (year : Int) (hy : year = 400 * K + 100 * n2 + 4 * n3 + 4) :
    year % 4 = 0 ∧ (year % 100 ≠ 0 ∨ year % 400 = 0) := by
  subst hy
  refine ⟨by omega, ?_⟩
  by_cases h24 : n3 = 24
  · right
    have := h h24
    subst h24
    subst this
    omega
  · left
    omega


theorem absYday_spec (abs : Nat) :
    ∃ n1 n2 n3 n4 : Nat,
      (absYday abs).1 = 400 * n1 + 100 * n2 + 4 * n3 + n4 ∧
      abs / 86400 = 146097 * n1 + 36524 * n2 + 1461 * n3 + 365 * n4 + (absYday abs).2 ∧
      n2 ≤ 3 ∧ n3 ≤ 24 ∧ n4 ≤ 3 ∧ (absYday abs).2 ≤ 365 ∧
      ((absYday abs).2 = 365 → n4 = 3) ∧
      365 * n4 + (absYday abs).2 ≤ 1460 ∧
      1461 * n3 + 365 * n4 + (absYday abs).2 ≤ 36524 ∧
      (1461 * n3 + 365 * n4 + (absYday abs).2 = 36524 → n2 = 3) ∧
      36524 * n2 + 1461 * n3 + 365 * n4 + (absYday abs).2 ≤ 146096 := by
  have c1 := cut400 (abs / 86400) _ _ rfl rfl
  have c2 := cut100 _ _ _ c1.1 rfl rfl
  have c3 := cut4 _ _ _ c2.1 rfl rfl
  have c4 := cut1 _ _ _ c3.1 rfl rfl
  refine ⟨_, _, _, _, rfl, ?_⟩
  simp only [absYday, secondsPerDay, secondsPerHour, secondsPerMinute, daysPer400Years,
    daysPer100Years, daysPer4Years, Nat.reduceMul, Nat.reduceAdd]
  generalize abs / 86400 = d0 at c1 c2 c3 c4 ⊢
  generalize hn1 : d0 / 146097 = n1 at c1 c2 c3 c4 ⊢
  generalize hd1 : d0 - 146097 * n1 = d1 at c1 c2 c3 c4 ⊢
  generalize hn2 : d1 / 36524 - d1 / 36524 / 4 = n2 at c1 c2 c3 c4 ⊢
  generalize hd2 : d1 - 36524 * n2 = d2 at c1 c2 c3 c4 ⊢
  generalize hn3 : d2 / 1461 = n3 at c1 c2 c3 c4 ⊢
  generalize hd3 : d2 - 1461 * n3 = d3 at c1 c2 c3 c4 ⊢
  generalize hn4 : d3 / 365 - d3 / 365 / 4 = n4 at c1 c2 c3 c4 ⊢
  generalize hd4 : d3 - 365 * n4 = d4 at c1 c2 c3 c4 ⊢
  clear hn1 hd1 hn2 hd2 hn3 hd3 hn4 hd4
  omega

theorem monthDay_bounds (year : Int) (yday : Nat) (h : yday ≤ 365)
    (hl : yday = 365 → isLeap year = true) :
    1 ≤ monthOf year yday ∧ monthOf year yday ≤ 12 ∧
    1 ≤ dayOf year yday ∧ dayOf year yday ≤ 31 := by
  unfold monthOf dayOf
  by_cases h1 : isLeap year = true ∧ yday = 31 + 29 - 1
  · rw [if_pos h1, if_pos h1]
    omega
  · rw [if_neg h1, if_neg h1]
    simp only []
    generalize hday : (if isLeap year = true ∧ yday > 31 + 29 - 1 then yday - 1 else yday) = day
    have hd : day ≤ 364 := by
      by_cases h2 : isLeap year = true ∧ yday > 31 + 29 - 1
      · rw [if_pos h2] at hday; omega
      · rw [if_neg h2] at hday
        subst hday
        by_contra hc
        have h365 : yday = 365 := by omega
        have := hl h365
        exact h2 ⟨this, by omega⟩
    clear hday h1 hl h
    generalize hm : day / 31 = mm
    have hm12 : mm ≤ 11 := by omega
    interval_cases mm <;> simp only [daysBefore, List.getD_cons_succ, List.getD_cons_zero] <;>
      split <;> omega

theorem absYday_fst_le (abs : Nat) (h : abs < 18446744073709551616) :
    (absYday abs).1 ≤ 584554072000 := by
  obtain ⟨n1, n2, n3, n4, hy, hd, h2, h3, h4, -⟩ := absYday_spec abs
  have h0 : abs / 86400 ≤ 213503982334601 := by omega
  have h1 : 146097 * n1 ≤ 213503982334601 := by omega
  have h1' : n1 ≤ 1461385179 := by omega
  omega

theorem absDate_false (abs : Nat) :
    absDate abs false =
      (toInt64 (toInt64 (absYday abs).1 + absoluteZeroYear), 0, 0, (absYday abs).2) := by
  unfold absDate
  exact if_pos rfl

theorem absDate_true (abs : Nat) :
    absDate abs true =
      (toInt64 (toInt64 (absYday abs).1 + absoluteZeroYear),
        monthOf (toInt64 (toInt64 (absYday abs).1 + absoluteZeroYear)) (absYday abs).2,
        dayOf (toInt64 (toInt64 (absYday abs).1 + absoluteZeroYear)) (absYday abs).2,
        (absYday abs).2) := by
  unfold absDate
  exact if_neg (by decide)

theorem year_eq (y : Nat) (hle : y ≤ 584554072000) :
    toInt64 (toInt64 (y : Int) + absoluteZeroYear) = (y : Int) - 292277022399 := by
  rw [toInt64_id (y : Int) (by omega) (by omega)]
  unfold absoluteZeroYear
  rw [toInt64_id ((y : Int) + -292277022399) (by omega) (by omega)]
  omega

/-- The results of `absDate` for an absolute time: the year is the year count
of `absYday` shifted by the absolute zero year, the month and the day are in
range. -/
theorem absDate_spec (abs : Nat) (h : abs < 18446744073709551616) :
    ∃ (m dd : Nat),
      absDate abs true = (((absYday abs).1 : Int) - 292277022399, m, dd, (absYday abs).2) ∧
      absDate abs false = (((absYday abs).1 : Int) - 292277022399, 0, 0, (absYday abs).2) ∧
      1 ≤ m ∧ m ≤ 12 ∧ 1 ≤ dd ∧ dd ≤ 31 := by
  obtain ⟨n1, n2, n3, n4, hy, -, h2, h3, h4, h5, h6, h7, h8, h9, -⟩ := absYday_spec abs
  have hle := absYday_fst_le abs h
  have hyear := year_eq (absYday abs).1 hle
  have e1 := absDate_true abs
  have e2 := absDate_false abs
  rw [hyear] at e1 e2
  refine ⟨_, _, e1, e2, ?_⟩
  clear e1 e2 hyear hle h
  generalize (absYday abs).2 = d at *
  generalize (absYday abs).1 = y at *
  apply monthDay_bounds _ _ h5 ?_
  intro h365
  rw [isLeap_iff]
  have hn4 := h6 h365
  apply leap_of_last_day ((n1 : Int) - 730692556) n2 n3 h2 h3
  · intro h24
    apply h9
    omega
  · subst hn4
    subst hy
    push_cast
    ring

end time

/-! ## Decimal conversion -/

theorem decimal_lt_10 (f u : Nat) (buf : List Char) (h : u < 10) :
    decimal (f + 1) u buf = Char.ofNat ('0'.toNat + u % 10) :: buf := by
  unfold decimal
  rw [if_neg (by omega), Nat.mod_eq_of_lt h]

theorem decimal_ge_10 (f u : Nat) (buf : List Char) (h : 10 ≤ u) :
    decimal (f + 1) u buf = decimal f (u / 10) (Char.ofNat ('0'.toNat + u % 10) :: buf) := by
  have e : u - u / 10 * 10 = u % 10 := by omega
  rw [decimal, if_pos h, e]

theorem decimal_two (u : Nat) (h : u ≤ 99) :
    List.replicate (2 - (decimal 20 u []).length) '0' ++ decimal 20 u [] = dec2 u := by
  unfold dec2
  by_cases h10 : u < 10
  · rw [decimal_lt_10 19 u [] h10]
    have e : u / 10 % 10 = 0 := by omega
    rw [e]
    rfl
  · rw [decimal_ge_10 19 u [] (by omega), decimal_lt_10 18 (u / 10) _ (by omega)]
    rfl

theorem decimal_four (u : Nat) (h1 : 1000 ≤ u) (h2 : u ≤ 9999) :
    decimal 20 u [] = dec4 u := by
  unfold dec4
  have e3 : u / 10 / 10 / 10 % 10 = u / 1000 % 10 := by omega
  have e2 : u / 10 / 10 % 10 = u / 100 % 10 := by omega
  rw [decimal_ge_10 19 u [] (by omega), decimal_ge_10 18 (u / 10) _ (by omega),
    decimal_ge_10 17 (u / 10 / 10) _ (by omega),
    decimal_lt_10 16 (u / 10 / 10 / 10) _ (by omega), e3, e2]

theorem toUint64_natCast (n : Nat) (h : n < 18446744073709551616) : toUint64 (n : Int) = n := by
  unfold toUint64
  omega

theorem fmtInteger_two (n : Nat) (h : n ≤ 99) : fmt.fmtInteger (n : Int) 2 true = dec2 n := by
  have hneg : decide ((n : Int) < 0) = false := by
    rw [decide_eq_false_iff_not]; omega
  unfold fmt.fmtInteger
  simp only [hneg, Bool.false_eq_true, if_false, if_true]
  rw [toUint64_natCast n (by omega), decimal_two n h]
  rfl

theorem fmtInteger_four (y : Int) (h1 : 1000 ≤ y) (h2 : y ≤ 9999) :
    fmt.fmtInteger y 4 false = dec4 y.toNat := by
  obtain ⟨n, rfl⟩ := Int.eq_ofNat_of_zero_le (show 0 ≤ y by omega)
  have hneg : decide ((n : Int) < 0) = false := by
    rw [decide_eq_false_iff_not]; omega
  unfold fmt.fmtInteger
  simp only [hneg, Bool.false_eq_true, if_false]
  rw [toUint64_natCast n (by omega), Int.toNat_ofNat, decimal_four n (by omega) (by omega)]
  rfl

namespace time

theorem appendInt_two (b : List Char) (n : Nat) (h : n ≤ 99) :
    appendInt b (n : Int) 2 = b ++ dec2 n := by
  have hneg : ¬ ((n : Int) < 0) := by omega
  unfold appendInt
  simp only [hneg, if_false]
  rw [toUint64_natCast n (by omega), List.append_assoc, decimal_two n h]

theorem appendInt_four (b : List Char) (y : Int) (h1 : 1000 ≤ y) (h2 : y ≤ 9999) :
    appendInt b y 4 = b ++ dec4 y.toNat := by
  obtain ⟨n, rfl⟩ := Int.eq_ofNat_of_zero_le (show 0 ≤ y by omega)
  have hneg : ¬ ((n : Int) < 0) := by omega
  unfold appendInt
  simp only [hneg, if_false]
  rw [toUint64_natCast n (by omega), Int.toNat_ofNat, decimal_four n (by omega) (by omega)]
  have e : List.replicate (4 - (dec4 n).length) '0' = [] := rfl
  rw [e, List.append_nil]

end time

namespace time

theorem day_eq : Hour * 24 = 86400000000000 := by decide

theorem Unix_eq (sec nsec : Int) (loc : Location) (h1 : 0 ≤ sec) (h2 : sec < 253402300800) :
    Unix sec nsec loc = ⟨sec + 62135596800, nsec, loc⟩ := by
  unfold Unix
  have e : unixToInternal = 62135596800 := by decide
  rw [e, toInt64_id _ (by omega) (by omega)]

theorem div_day (S nsec : Int) (loc : Location) (h : 0 ≤ S) :
    div ⟨S, nsec, loc⟩ 86400000000000 = S % 86400 * 1000000000 + nsec := by
  have hneg : decide (S < 0) = false := by
    rw [decide_eq_false_iff_not]; omega
  have e1 : Int.tdiv 86400000000000 Second = 86400 := by decide
  have e2 : Int.tmod S 86400 = S % 86400 := Int.tmod_eq_emod h (by omega)
  unfold div
  simp only [hneg, Bool.false_eq_true, if_false, false_and, e1, e2]
  rfl

theorem Add_down (S nsec s : Int) (loc : Location) (hs : 0 ≤ s) (hn : 0 ≤ nsec)
    (hn2 : nsec < 1000000000) :
    Time.Add ⟨S, nsec, loc⟩ (-(s * 1000000000 + nsec)) = ⟨toInt64 (S - s), 0, loc⟩ := by
  have e1 : Int.tdiv (-(s * 1000000000 + nsec)) 1000000000 = -s := by
    rw [Int.neg_tdiv, Int.tdiv_eq_ediv (by omega) (by omega)]
    omega
  have e2 : Int.tmod (-(s * 1000000000 + nsec)) 1000000000 = -nsec := by
    rw [Int.tmod_def, e1]
    omega
  unfold Time.Add
  simp only [e1, e2]
  have e3 : nsec + -nsec = 0 := by omega
  rw [e3, if_neg (by omega), if_neg (by omega)]
  rfl

theorem Add_up (S nsec s : Int) (loc : Location) (hs : 0 ≤ s) (hs2 : s < 86400) (hn : 0 ≤ nsec)
    (hn2 : nsec < 1000000000) (hS : 0 ≤ S) (hS2 : S < 9223372036854000000) :
    Time.Add ⟨S, nsec, loc⟩ (86400000000000 - (s * 1000000000 + nsec))
      = ⟨S + 86400 - s, 0, loc⟩ := by
  unfold Time.Add
  by_cases h0 : nsec = 0
  · subst h0
    have e1 : Int.tdiv (86400000000000 - (s * 1000000000 + 0)) 1000000000 = 86400 - s := by
      rw [Int.tdiv_eq_ediv (by omega) (by omega)]
      omega
    have e2 : Int.tmod (86400000000000 - (s * 1000000000 + 0)) 1000000000 = 0 := by
      rw [Int.tmod_def, e1]
      omega
    simp only [e1, e2]
    rw [if_neg (by omega), if_neg (by omega), toInt64_id _ (by omega) (by omega)]
    congr 1
    omega
  · have e1 : Int.tdiv (86400000000000 - (s * 1000000000 + nsec)) 1000000000
        = 86400 - s - 1 := by
      rw [Int.tdiv_eq_ediv (by omega) (by omega)]
      omega
    have e2 : Int.tmod (86400000000000 - (s * 1000000000 + nsec)) 1000000000
        = 1000000000 - nsec := by
      rw [Int.tmod_def, e1]
      omega
    simp only [e1, e2]
    have e3 : nsec + (1000000000 - nsec) = 1000000000 := by omega
    rw [e3, if_pos (by omega), toInt64_id (S + (86400 - s - 1)) (by omega) (by omega),
      toInt64_id _ (by omega) (by omega)]
    congr 1
    omega

/-- Rounding a wall clock reading to a multiple of 24 hours gives the midnight
(UTC) at the start of its day before 12:00:00 UTC and the next midnight from
12:00:00 UTC on. -/
theorem Round_day (sec nsec : Int) (loc : Location) (h1 : 0 ≤ sec) (h2 : sec < 253402300800)
    (hn : 0 ≤ nsec) (hn2 : nsec < 1000000000) :
    (Unix sec nsec loc).Round (Hour * 24) =
      if sec % 86400 < 43200 then Unix (sec - sec % 86400) 0 loc
      else Unix (sec - sec % 86400 + 86400) 0 loc := by
  rw [Unix_eq sec nsec loc h1 h2, day_eq]
  unfold Time.Round
  have hd0 : ¬ ((86400000000000 : Int) ≤ 0) := by omega
  rw [if_neg hd0, div_day _ _ _ (by omega)]
  simp only []
  have em : (sec + 62135596800) % 86400 = sec % 86400 := by omega
  rw [em]
  by_cases hlt : sec % 86400 < 43200
  · have hc : sec % 86400 * 1000000000 + nsec + (sec % 86400 * 1000000000 + nsec)
        < (86400000000000 : Int) := by omega
    rw [if_pos hc, if_pos hlt, Add_down _ _ _ _ (by omega) hn hn2,
      toInt64_id _ (by omega) (by omega)]
    unfold Unix
    have e : unixToInternal = 62135596800 := by decide
    rw [e, toInt64_id _ (by omega) (by omega)]
    congr 1
    omega
  · have hc : ¬ (sec % 86400 * 1000000000 + nsec + (sec % 86400 * 1000000000 + nsec)
        < (86400000000000 : Int)) := by omega
    rw [if_neg hc, if_neg hlt,
      Add_up _ _ _ _ (by omega) (by omega) hn hn2 (by omega) (by omega)]
    unfold Unix
    have e : unixToInternal = 62135596800 := by decide
    rw [e, toInt64_id _ (by omega) (by omega)]
    congr 1
    omega

end time

namespace time

theorem toUint64_lt (x : Int) : toUint64 x < 18446744073709551616 := by
  unfold toUint64
  omega

theorem abs_lt (t : Time) : t.abs < 18446744073709551616 := by
  unfold Time.abs
  exact toUint64_lt _

theorem absYday_congr (a b : Nat) (h : a / 86400 = b / 86400) : absYday a = absYday b := by
  have e : secondsPerDay = 86400 := rfl
  unfold absYday
  rw [e, h]

theorem absDate_congr (a b : Nat) (full : Bool) (h : a / 86400 = b / 86400) :
    absDate a full = absDate b full := by
  unfold absDate
  rw [absYday_congr a b h]

theorem abs_Unix (sec nsec : Int) (loc : Location) (h1 : 0 ≤ sec) (h2 : sec < 253402300800)
    (hloc : loc sec = 0) :
    ((Unix sec nsec loc).abs : Int) = sec + 9223372028715321600 := by
  rw [Unix_eq sec nsec loc h1 h2]
  unfold Time.abs
  have e1 : internalToUnix = -62135596800 := by decide
  have e2 : unixToInternal + internalToAbsolute = 9223372028715321600 := by decide
  simp only [e1, e2]
  have e3 : toInt64 (sec + 62135596800 + -62135596800) = sec := by
    rw [toInt64_id _ (by omega) (by omega)]
    omega
  rw [e3, hloc]
  have e4 : toInt64 (sec + 0) = sec := by
    rw [toInt64_id _ (by omega) (by omega)]
    omega
  rw [e4, toUint64_id _ (by omega) (by omega)]

theorem Year_of (t : Time) (y : Int) (m dd yd : Nat)
    (e : absDate t.abs false = (y, m, dd, yd)) : t.Year = y := by
  unfold Time.Year
  rewrite [e]
  rfl

theorem Month_of (t : Time) (y : Int) (m dd yd : Nat)
    (e : absDate t.abs true = (y, m, dd, yd)) : t.Month = m := by
  unfold Time.Month
  rewrite [e]
  rfl

theorem Day_of (t : Time) (y : Int) (m dd yd : Nat)
    (e : absDate t.abs true = (y, m, dd, yd)) : t.Day = dd := by
  unfold Time.Day
  rewrite [e]
  rfl

/-- The date fields of a time, with their ranges. -/
theorem date_fields (t : Time) :
    ∃ (m dd : Nat),
      absDate t.abs true = (((absYday t.abs).1 : Int) - 292277022399, m, dd, (absYday t.abs).2) ∧
      t.Year = ((absYday t.abs).1 : Int) - 292277022399 ∧ t.Month = m ∧ t.Day = dd ∧
      1 ≤ m ∧ m ≤ 12 ∧ 1 ≤ dd ∧ dd ≤ 31 := by
  obtain ⟨m, dd, e1, e2, hb⟩ := absDate_spec t.abs (abs_lt t)
  exact ⟨m, dd, e1, Year_of t _ _ _ _ e2, Month_of t _ _ _ _ e1, Day_of t _ _ _ _ e1, hb⟩

end time

theorem fmt_date (t1 t2 t3 : time.Time) (h2 : t2 = t1) (h3 : t3 = t1)
    (hy1 : 1000 ≤ t1.Year) (hy2 : t1.Year ≤ 9999) :
    fmt.fmtInteger t1.Year 4 false ++ "-".toList ++ fmt.fmtInteger t2.Month 2 true
      ++ "-".toList ++ fmt.fmtInteger t3.Day 2 true ++ "T00:00:00Z".toList = dateZ t1 := by
  rw [h2, h3]
  obtain ⟨m, dd, -, -, hm, hdd, hb⟩ := time.date_fields t1
  unfold dateZ
  rw [fmtInteger_four _ hy1 hy2, hm, hdd, fmtInteger_two m (by omega), fmtInteger_two dd (by omega)]

namespace time

theorem absClock_midnight (abs : Nat) (h : abs % 86400 = 0) : absClock abs = (0, 0, 0) := by
  have e : secondsPerDay = 86400 := rfl
  unfold absClock
  rw [e, h]
  rfl

end time

namespace time

theorem absClock_spec (abs : Nat) :
    ∃ hh mm ss : Nat, absClock abs = (hh, mm, ss) ∧ hh ≤ 23 ∧ mm ≤ 59 ∧ ss ≤ 59 := by
  have e1 : secondsPerDay = 86400 := rfl
  have e2 : secondsPerHour = 3600 := rfl
  have e3 : secondsPerMinute = 60 := rfl
  unfold absClock
  rw [e1, e2, e3]
  refine ⟨_, _, _, rfl, ?_, ?_, ?_⟩ <;> omega

/-- The layout "2006-01-02T15:04:05Z" gives the date and the time of day of
`t` in its location, followed by the letter Z. -/
theorem Format_general (t : Time) (hy1 : 1000 ≤ t.Year) (hy2 : t.Year ≤ 9999) :
    t.Format = datePart t ++ "T".toList ++ clockPart t ++ "Z".toList := by
  obtain ⟨m, dd, e1, hy, hm, hdd, hb⟩ := date_fields t
  obtain ⟨hh, mm, ss, ec, hc⟩ := absClock_spec t.abs
  unfold datePart clockPart
  rw [hm, hdd, ec]
  rw [hy] at hy1 hy2 ⊢
  unfold Time.Format
  simp only []
  rw [ec, e1]
  generalize ((absYday t.abs).1 : Int) - 292277022399 = Y at *
  generalize (absYday t.abs).2 = yd at *
  simp only []
  rw [appendInt_four _ _ hy1 hy2, appendInt_two _ m (by omega), appendInt_two _ dd (by omega),
    appendInt_two _ hh (by omega), appendInt_two _ mm (by omega), appendInt_two _ ss (by omega)]
  generalize dec4 Y.toNat = A
  generalize dec2 m = B
  generalize dec2 dd = C
  generalize dec2 hh = D
  generalize dec2 mm = E
  generalize dec2 ss = G
  simp only [List.append_assoc, List.nil_append]
  rfl

theorem clockPart_midnight (t : Time) (h : t.abs % 86400 = 0) :
    clockPart t = "00:00:00".toList := by
  unfold clockPart
  rw [absClock_midnight _ h]
  rfl

end time

theorem datePart_congr (t1 t2 : time.Time) (h : t1.abs / 86400 = t2.abs / 86400) :
    datePart t1 = datePart t2 := by
  unfold datePart time.Time.Year time.Time.Month time.Time.Day
  rw [time.absDate_congr t1.abs t2.abs true h, time.absDate_congr t1.abs t2.abs false h]

theorem dateZ_eq_datePart (t : time.Time) : dateZ t = datePart t ++ "T00:00:00Z".toList := rfl

/-! ## Common lemmas -/

/-- The results of `create` are determined by the outcome of `os.OpenFile`. -/
theorem create_result {σ F : Type} (sys : os.Sys σ F) (env : Env)
    (tag : GoString) (t : time.Time) (s : State σ) :
    (create sys env tag t s).1 =
      match (sys.OpenFile (filepath.Join [env.logDir, (logName env tag t).1])
          (os.O_RDWR ||| os.O_CREATE ||| os.O_APPEND) 0o666 s.world).1 with
      | .ok fd => ⟨some fd, filepath.Join [env.logDir, (logName env tag t).1], none⟩
      | .error e => ⟨none, [], some ("log: cannot create log: ".toList ++ e)⟩ := by
  unfold create
  simp only []
  rcases sys.OpenFile (filepath.Join [env.logDir, (logName env tag t).1])
      (os.O_RDWR ||| os.O_CREATE ||| os.O_APPEND) 0o666 s.world with ⟨o1, w⟩
  cases o1 with
  | error e => rfl
  | ok fd =>
    simp only []
    split <;> rfl

theorem ofNat_ne_sep (n : Nat) (h : 48 ≤ n) : Char.ofNat n ≠ filepath.Separator := by
  intro hc
  have h1 : (Char.ofNat n).toNat = 47 := by rw [hc]; rfl
  by_cases hv : n.isValidChar
  · have h2 : (Char.ofNat n).toNat = n := by
      simp only [Char.ofNat, hv, Char.ofNatAux, Char.toNat, dite_true]
      rfl
    omega
  · have h2 : (Char.ofNat n).toNat = 0 := by
      simp only [Char.ofNat, hv, Char.toNat, dite_false]
      rfl
    omega

theorem decimal_no_sep : ∀ (fuel u : Nat) (buf : List Char),
    filepath.Separator ∉ buf → filepath.Separator ∉ decimal fuel u buf := by
  intro fuel
  induction fuel with
  | zero =>
    intro u buf hb hm
    simp only [decimal, List.mem_cons] at hm
    rcases hm with hm | hm
    · exact ofNat_ne_sep _ (by simp) hm.symm
    · exact hb hm
  | succ f ih =>
    intro u buf hb
    unfold decimal
    split
    · apply ih
      intro hm
      simp only [List.mem_cons] at hm
      rcases hm with hm | hm
      · exact ofNat_ne_sep _ (by simp) hm.symm
      · exact hb hm
    · intro hm
      simp only [List.mem_cons] at hm
      rcases hm with hm | hm
      · exact ofNat_ne_sep _ (by simp) hm.symm
      · exact hb hm

theorem fmtInteger_no_sep (a : Int) (wid : Nat) (zero : Bool) :
    filepath.Separator ∉ fmt.fmtInteger a wid zero := by
  have hd : ∀ u, filepath.Separator ∉ decimal 20 u [] := fun u => decimal_no_sep 20 u [] (by simp)
  unfold fmt.fmtInteger
  simp only [List.mem_append, List.mem_replicate, not_or]
  refine ⟨fun h => by simp [filepath.Separator] at h, ?_⟩
  split
  · simp only [List.mem_cons, List.mem_append, List.mem_replicate, not_or]
    exact ⟨by simp [filepath.Separator], fun h => by simp [filepath.Separator] at h, hd _⟩
  · simp only [List.mem_append, List.mem_replicate, not_or]
    exact ⟨fun h => by simp [filepath.Separator] at h, hd _⟩

theorem cons_plain (c d : Char) (l : List Char) (hc : c ≠ '.')
    (hs : filepath.Separator ∉ c :: d :: l) : filepath.plainElem (c :: d :: l) := by
  refine ⟨List.cons_ne_nil _ _, hs, ?_, ?_⟩
  · intro h
    exact List.cons_ne_nil _ _ (List.cons.inj h).2
  · intro h
    exact hc (List.cons.inj h).1


theorem logName_production (env : Env) (tag : GoString) (t : time.Time)
    (hd : env.debug = false) :
    logName env tag t = ("LOG.".toList ++ fmt.fmtInteger (env.Now 0).Year 4 false
        ++ "-".toList ++ fmt.fmtInteger (env.Now 1).Month 2 true ++ "-".toList
        ++ fmt.fmtInteger (env.Now 2).Day 2 true ++ "T00:00:00Z".toList,
      "LOG.IWEF.".toList ++ ((env.Now 3).Round (time.Hour * 24)).Format) := by
  unfold logName
  rw [if_pos hd]

theorem logName_debug (env : Env) (tag : GoString) (t : time.Time)
    (hd : env.debug = true) :
    logName env tag t = ("DEBUGLOGS.".toList ++ tag, "DEBUG.".toList ++ env.program) := by
  unfold logName
  rw [if_neg (by rw [hd]; exact Bool.noConfusion)]
  rfl

theorem LOG_append (x : List Char) :
    "LOG.".toList ++ x = 'L' :: 'O' :: 'G' :: '.' :: x := rfl

theorem DEBUGLOGS_append (x : List Char) :
    "DEBUGLOGS.".toList ++ x
      = 'D' :: 'E' :: 'B' :: 'U' :: 'G' :: 'L' :: 'O' :: 'G' :: 'S' :: '.' :: x := rfl

theorem plain_of_LOG (x : List Char) (hx : filepath.Separator ∉ x) :
    filepath.plainElem ('L' :: 'O' :: 'G' :: '.' :: x) := by
  apply cons_plain
  · decide
  · intro h
    rcases List.mem_cons.mp h with h | h
    · exact absurd h (by decide)
    rcases List.mem_cons.mp h with h | h
    · exact absurd h (by decide)
    rcases List.mem_cons.mp h with h | h
    · exact absurd h (by decide)
    rcases List.mem_cons.mp h with h | h
    · exact absurd h (by decide)
    exact hx h

theorem plain_of_DEBUGLOGS (x : List Char) (hx : filepath.Separator ∉ x) :
    filepath.plainElem ('D' :: 'E' :: 'B' :: 'U' :: 'G' :: 'L' :: 'O' :: 'G' :: 'S' :: '.' :: x) := by
  apply cons_plain
  · decide
  · intro h
    have h9 : ∀ c : Char, c ∈ ['D', 'E', 'B', 'U', 'G', 'L', 'O', 'G', 'S', '.'] →
        c ≠ filepath.Separator := by decide
    have h' : filepath.Separator ∈ ['D', 'E', 'B', 'U', 'G', 'L', 'O', 'G', 'S', '.'] ++ x := h
    rcases List.mem_append.mp h' with h1 | h1
    · exact h9 _ h1 rfl
    · exact hx h1

theorem logName_plain (env : Env) (tag : GoString) (t : time.Time)
    (htag : env.debug = true → filepath.Separator ∉ tag) :
    filepath.plainElem (logName env tag t).1 := by
  cases hd : env.debug
  · rw [logName_production env tag t hd]
    simp only [List.append_assoc]
    rw [LOG_append]
    apply plain_of_LOG
    intro h
    have h2 : filepath.Separator ∉ "-".toList := by decide
    have h3 : filepath.Separator ∉ "T00:00:00Z".toList := by decide
    simp only [List.mem_append] at h
    rcases h with h | h | h | h | h | h
    · exact fmtInteger_no_sep _ _ _ h
    · exact h2 h
    · exact fmtInteger_no_sep _ _ _ h
    · exact h2 h
    · exact fmtInteger_no_sep _ _ _ h
    · exact h3 h
  · rw [logName_debug env tag t hd]
    rw [DEBUGLOGS_append]
    exact plain_of_DEBUGLOGS tag (htag hd)

/-! ## Host name: proofs -/

theorem Index_dot (h : GoString) :
    strings.Index h ['.'] =
      if '.' ∈ h then ((h.takeWhile (· ≠ '.')).length : Int) else -1 := by
  induction h with
  | nil => simp [strings.Index]
  | cons c s ih =>
    by_cases hc : c = '.'
    · subst hc
      simp [strings.Index]
    · have hc2 : ¬ ('.' = c) := fun h => hc h.symm
      simp only [strings.Index, List.cons_prefix_cons, List.nil_prefix, and_true, hc2, if_false, ih]
      by_cases hs : '.' ∈ s
      · simp [hs, hc, List.takeWhile_cons]
      · simp [hs, hc, hc2]

theorem shortHostname_eq_takeWhile (h : GoString) :
    shortHostname h = h.takeWhile (· ≠ '.') := by
  unfold shortHostname
  show (if strings.Index h ['.'] ≥ 0 then h.take (strings.Index h ['.']).toNat else h) = _
  rw [Index_dot]
  by_cases hs : '.' ∈ h
  · simp only [hs, if_true]
    have : ((List.takeWhile (fun x => decide (x ≠ '.')) h).length : Int) ≥ 0 := by omega
    simp only [this, if_true, Int.toNat_ofNat]
    clear this
    induction h with
    | nil => simp
    | cons c s ih =>
      by_cases hc : c = '.'
      · simp [hc]
      · have : '.' ∈ s := by
          rcases List.mem_cons.mp hs with h1 | h1
          · exact absurd h1.symm hc
          · exact h1
        have h2 := ih this
        simpa [List.takeWhile_cons, hc] using h2
  · have h1 : ¬ ((-1 : Int) ≥ 0) := by omega
    simp only [hs, if_false, h1]
    symm
    rw [List.takeWhile_eq_self_iff]
    intro x hx
    simp
    intro hxe
    exact hs (hxe ▸ hx)

theorem takeWhile_no_dot (h : GoString) : '.' ∉ h.takeWhile (· ≠ '.') := by
  intro hm
  have := List.mem_takeWhile_imp hm
  simp at this

theorem prefix_no_dot_le (h p : GoString) (hp : p <+: h) (hd : '.' ∉ p) :
    p.length ≤ (h.takeWhile (· ≠ '.')).length := by
  induction h generalizing p with
  | nil =>
    have : p = [] := List.prefix_nil.mp hp
    simp [this]
  | cons c s ih =>
    cases p with
    | nil => simp
    | cons a q =>
      rw [List.cons_prefix_cons] at hp
      obtain ⟨hac, hq⟩ := hp
      subst hac
      have ha : a ≠ '.' := fun h => hd (h ▸ List.mem_cons_self _ _)
      have hq' : '.' ∉ q := fun h => hd (List.mem_cons_of_mem _ h)
      have h2 := ih q hq hq'
      simpa [List.takeWhile_cons, ha] using h2

theorem takeWhile_dot_split (h : GoString) (hs : '.' ∈ h) :
    ∃ rest, h = h.takeWhile (· ≠ '.') ++ '.' :: rest := by
  induction h with
  | nil => simp at hs
  | cons c s ih =>
    by_cases hc : c = '.'
    · exact ⟨s, by simp [hc]⟩
    · have : '.' ∈ s := by
        rcases List.mem_cons.mp hs with h1 | h1
        · exact absurd h1.symm hc
        · exact h1
      obtain ⟨r, hr⟩ := ih this
      refine ⟨r, ?_⟩
      simp only [List.takeWhile_cons, ne_eq, hc, not_false_eq_true, decide_True, if_true,
        List.cons_append]
      rw [← hr]

/-- C10: `shortHostname h` is a prefix of `h` without a period, no prefix of `h`
without a period is longer, it is the part of `h` strictly before the first
period when `h` has one and `h` itself otherwise, and `shortHostname` is
idempotent; on "www.google.com" it gives "www". -/
theorem shortHostname_longest_prefix_without_period (h : GoString) :
    shortHostname h <+: h ∧ '.' ∉ shortHostname h ∧
    (∀ p : GoString, p <+: h → '.' ∉ p → p.length ≤ (shortHostname h).length) ∧
    ('.' ∈ h → ∃ rest, h = shortHostname h ++ '.' :: rest) ∧
    ('.' ∉ h → shortHostname h = h) ∧
    shortHostname (shortHostname h) = shortHostname h ∧
    shortHostname "www.google.com".toList = "www".toList := by
  have key := shortHostname_eq_takeWhile
  refine ⟨?_, ?_, ?_, ?_, ?_, ?_, by decide⟩
  · rw [key]; exact List.takeWhile_prefix _
  · rw [key]; exact takeWhile_no_dot h
  · intro p hp hd; rw [key]; exact prefix_no_dot_le h p hp hd
  · intro hs; rw [key]; exact takeWhile_dot_split h hs
  · intro hs
    rw [key, List.takeWhile_eq_self_iff]
    intro x hx
    simp
    intro hxe
    exact hs (hxe ▸ hx)
  · rw [key, key, List.takeWhile_eq_self_iff]
    intro x hx
    have := List.mem_takeWhile_imp hx
    simpa using this

/-- Witness for C10 at the host name "a.b". -/
theorem shortHostname_longest_prefix_without_period_witness :
    (['a'] : GoString) <+: "a.b".toList ∧ '.' ∉ (['a'] : GoString) ∧
    (['a'] : GoString).length ≤ (shortHostname "a.b".toList).length ∧
    ∃ rest, "a.b".toList = shortHostname "a.b".toList ++ '.' :: rest :=
  ⟨by decide, by decide,
    (shortHostname_longest_prefix_without_period "a.b".toList).2.2.1 ['a'] (by decide) (by decide),
    (shortHostname_longest_prefix_without_period "a.b".toList).2.2.2.1 (by decide)⟩

/-! ## Directory list: proofs -/

/-- C8: from an empty candidate list, `createLogDirs` produces a non-empty list
ending in "/tmp/": `[override, "/tmp/"]` for a non-empty override and
`["/tmp/"]` for the empty one. -/
theorem createLogDirs_from_empty (logDir : GoString) :
    createLogDirs logDir [] ≠ [] ∧
    (createLogDirs logDir []).getLast? = some "/tmp/".toList ∧
    createLogDirs logDir [] =
      if logDir ≠ [] then [logDir, "/tmp/".toList] else ["/tmp/".toList] := by
  unfold createLogDirs
  by_cases h : logDir = []
  · subst h; simp
  · simp [h]

/-! ## File creation: results and state -/

/-- C5: `create` returns an error exactly when `os.OpenFile` fails, whatever
`os.Remove` and `os.Symlink` do; on success the results are the opened file,
the joined path and a nil error, on failure a nil file, the empty path and the
error "log: cannot create log: " followed by the message of the error of
`os.OpenFile`; a file and an error are never returned together. -/
theorem create_error_iff_open_fails {σ F : Type} (sys : os.Sys σ F) (env : Env)
    (tag : GoString) (t : time.Time) (s : State σ) :
    let fname := filepath.Join [env.logDir, (logName env tag t).1]
    let o := sys.OpenFile fname (os.O_RDWR ||| os.O_CREATE ||| os.O_APPEND) 0o666 s.world
    let r := (create sys env tag t s).1
    (r.err ≠ none ↔ ∃ e, o.1 = .error e) ∧
    (∀ fd, o.1 = .ok fd → r.f = some fd ∧ r.filename = fname ∧ r.err = none) ∧
    (∀ e, o.1 = .error e →
      r.f = none ∧ r.filename = [] ∧ r.err = some ("log: cannot create log: ".toList ++ e)) ∧
    ¬ (r.f ≠ none ∧ r.err ≠ none) := by
  intro fname o r
  have hr : r = match o.1 with
      | .ok fd => ⟨some fd, fname, none⟩
      | .error e => ⟨none, [], some ("log: cannot create log: ".toList ++ e)⟩ :=
    create_result sys env tag t s
  rcases ho : o.1 with e | fd
  · rw [ho] at hr
    simp only [] at hr
    rw [hr]
    simp
  · rw [ho] at hr
    simp only [] at hr
    rw [hr]
    simp

/-- Witness for C5: a failing open in a file system without the directory
"/var/log/app". -/
theorem create_error_iff_open_fails_witness :
    (create os.posix (envExample "/var/log/app".toList true 0) "INFO".toList
        (time.Unix 0 0 time.UTC) ⟨[], fsExample⟩).1.err =
      some ("log: cannot create log: ".toList ++
        "open /var/log/app/DEBUGLOGS.INFO: no such file or directory".toList) :=
  ((create_error_iff_open_fails os.posix (envExample "/var/log/app".toList true 0) "INFO".toList
      (time.Unix 0 0 time.UTC) ⟨[], fsExample⟩).2.2.1
    "open /var/log/app/DEBUGLOGS.INFO: no such file or directory".toList rfl).2.2

/-- C4 as stated fails: the open fails (the directory "/var/log/app" does not
exist), and `currentLogFile`, "old.log" before the call, is the path of the
failed open after it. -/
theorem create_failed_open_changes_currentLogFile :
    (create os.posix (envExample "/var/log/app".toList false 0) "INFO".toList
        (time.Unix 0 0 time.UTC) ⟨"old.log".toList, fsExample⟩).1.err ≠ none ∧
    (create os.posix (envExample "/var/log/app".toList false 0) "INFO".toList
        (time.Unix 0 0 time.UTC) ⟨"old.log".toList, fsExample⟩).2.currentLogFile
      = "/var/log/app/LOG.2024-03-05T00:00:00Z".toList ∧
    (create os.posix (envExample "/var/log/app".toList false 0) "INFO".toList
        (time.Unix 0 0 time.UTC) ⟨"old.log".toList, fsExample⟩).2.currentLogFile
      ≠ "old.log".toList := by
  decide

/-- C4 amended: `create` assigns the joined path to `currentLogFile` before it
opens the file, so after the call `currentLogFile` is that path whether the
open failed or succeeded. -/
theorem create_sets_currentLogFile {σ F : Type} (sys : os.Sys σ F) (env : Env)
    (tag : GoString) (t : time.Time) (s : State σ) :
    (create sys env tag t s).2.currentLogFile =
      filepath.Join [env.logDir, (logName env tag t).1] := by
  unfold create
  simp only []
  split
  · split <;> rfl
  · rfl

/-- C9 at the failing input: in production mode the name for the tag "INFO" is
"LOG.2024-03-05T00:00:00Z", which does not contain "INFO"; in debug mode the
name for the same tag does. -/
theorem logName_production_lacks_tag :
    (logName (envExample "/tmp/".toList false 0) "INFO".toList (time.Unix 0 0 time.UTC)).1
      = "LOG.2024-03-05T00:00:00Z".toList ∧
    ¬ ("INFO".toList <:+:
      (logName (envExample "/tmp/".toList false 0) "INFO".toList (time.Unix 0 0 time.UTC)).1) ∧
    "INFO".toList <:+:
      (logName (envExample "/tmp/".toList true 0) "INFO".toList (time.Unix 0 0 time.UTC)).1 := by
  decide

/-! ## The path opened by `create` -/

/-- C1 as stated fails for the empty override: in debug mode with tag "DEBUG"
the call succeeds, opens and returns the relative path "DEBUGLOGS.DEBUG", and
the new file is the entry "DEBUGLOGS.DEBUG", not an entry of "/tmp/".  It also
fails for a tag with path separators: with override "/var/log/app" and tag
"x/../../y" the call succeeds and returns "/var/log/y", outside the override
directory. -/
theorem create_empty_override_not_in_tmp :
    (create os.posix (envExample [] true 0) "DEBUG".toList (time.Unix 0 0 time.UTC)
        ⟨[], fsExample⟩).1.err = none ∧
    (create os.posix (envExample [] true 0) "DEBUG".toList (time.Unix 0 0 time.UTC)
        ⟨[], fsExample⟩).1.filename = "DEBUGLOGS.DEBUG".toList ∧
    (create os.posix (envExample [] true 0) "DEBUG".toList (time.Unix 0 0 time.UTC)
        ⟨[], fsExample⟩).1.filename ≠ "/tmp/DEBUGLOGS.DEBUG".toList ∧
    (create os.posix (envExample [] true 0) "DEBUG".toList (time.Unix 0 0 time.UTC)
        ⟨[], fsExample⟩).2.world.lookup "DEBUGLOGS.DEBUG".toList = some (.file 0) ∧
    (create os.posix (envExample [] true 0) "DEBUG".toList (time.Unix 0 0 time.UTC)
        ⟨[], fsExample⟩).2.world.lookup "/tmp/DEBUGLOGS.DEBUG".toList = none ∧
    (create os.posix (envExample "/var/log/app".toList true 0) "x/../../y".toList
        (time.Unix 0 0 time.UTC)
        ⟨[], ⟨[("/var/log".toList, .dir), ("/var/log/app".toList, .dir)], fun _ => [], 0⟩⟩).1.err
      = none ∧
    (create os.posix (envExample "/var/log/app".toList true 0) "x/../../y".toList
        (time.Unix 0 0 time.UTC)
        ⟨[], ⟨[("/var/log".toList, .dir), ("/var/log/app".toList, .dir)], fun _ => [], 0⟩⟩).1.filename
      = "/var/log/y".toList := by
  decide

/-- The state left by `create`, for every behaviour of the calls of `os`. -/
theorem create_state {σ F : Type} (sys : os.Sys σ F) (env : Env)
    (tag : GoString) (t : time.Time) (s : State σ) :
    (create sys env tag t s).2 =
      ⟨filepath.Join [env.logDir, (logName env tag t).1],
        match (sys.OpenFile (filepath.Join [env.logDir, (logName env tag t).1])
            (os.O_RDWR ||| os.O_CREATE ||| os.O_APPEND) 0o666 s.world).1 with
        | .ok _ =>
          if env.debug = true then
            (sys.Symlink (logName env tag t).1
              (filepath.Join [env.logDir, (logName env tag t).2])
              (sys.Remove (filepath.Join [env.logDir, (logName env tag t).2])
                (sys.OpenFile (filepath.Join [env.logDir, (logName env tag t).1])
                  (os.O_RDWR ||| os.O_CREATE ||| os.O_APPEND) 0o666 s.world).2).2).2
          else
            (sys.OpenFile (filepath.Join [env.logDir, (logName env tag t).1])
              (os.O_RDWR ||| os.O_CREATE ||| os.O_APPEND) 0o666 s.world).2
        | .error _ =>
          (sys.OpenFile (filepath.Join [env.logDir, (logName env tag t).1])
            (os.O_RDWR ||| os.O_CREATE ||| os.O_APPEND) 0o666 s.world).2⟩ := by
  unfold create
  simp only []
  rcases sys.OpenFile (filepath.Join [env.logDir, (logName env tag t).1])
      (os.O_RDWR ||| os.O_CREATE ||| os.O_APPEND) 0o666 s.world with ⟨o1, w⟩
  cases o1 with
  | error e => rfl
  | ok fd =>
    simp only []
    split <;> rfl

/-- C1 amended: for a non-empty override and a tag without a path separator (in
production mode: for every tag), the file name is a single path element and the
path `P` of that name directly inside the cleaned override directory is the
path that `create` passes to `os.OpenFile`, with the flags
`O_RDWR|O_CREATE|O_APPEND` and the mode 0666, stores in `currentLogFile` and
returns on success: for every behaviour of the calls of `os`, the results and
the state left by `create` are those determined by the outcome of that one call
of `os.OpenFile` on `P`. -/
theorem create_path_in_override_dir {σ F : Type} (sys : os.Sys σ F) (env : Env)
    (tag : GoString) (t : time.Time) (s : State σ)
    (hdir : env.logDir ≠ [])
    (htag : env.debug = true → filepath.Separator ∉ tag) :
    filepath.plainElem (logName env tag t).1 ∧
    (create sys env tag t s).2.currentLogFile =
      filepath.inDir (filepath.Clean env.logDir) (logName env tag t).1 ∧
    (create sys env tag t s).1 =
      (match (sys.OpenFile (filepath.inDir (filepath.Clean env.logDir) (logName env tag t).1)
          (os.O_RDWR ||| os.O_CREATE ||| os.O_APPEND) 0o666 s.world).1 with
      | .ok fd =>
        ⟨some fd, filepath.inDir (filepath.Clean env.logDir) (logName env tag t).1, none⟩
      | .error e => ⟨none, [], some ("log: cannot create log: ".toList ++ e)⟩) ∧
    (create sys env tag t s).2.world =
      (match (sys.OpenFile (filepath.inDir (filepath.Clean env.logDir) (logName env tag t).1)
          (os.O_RDWR ||| os.O_CREATE ||| os.O_APPEND) 0o666 s.world).1 with
      | .ok _ =>
        if env.debug = true then
          (sys.Symlink (logName env tag t).1
            (filepath.Join [env.logDir, (logName env tag t).2])
            (sys.Remove (filepath.Join [env.logDir, (logName env tag t).2])
              (sys.OpenFile
                (filepath.inDir (filepath.Clean env.logDir) (logName env tag t).1)
                (os.O_RDWR ||| os.O_CREATE ||| os.O_APPEND) 0o666 s.world).2).2).2
        else
          (sys.OpenFile (filepath.inDir (filepath.Clean env.logDir) (logName env tag t).1)
            (os.O_RDWR ||| os.O_CREATE ||| os.O_APPEND) 0o666 s.world).2
      | .error _ =>
        (sys.OpenFile (filepath.inDir (filepath.Clean env.logDir) (logName env tag t).1)
          (os.O_RDWR ||| os.O_CREATE ||| os.O_APPEND) 0o666 s.world).2) := by
  have hp := logName_plain env tag t htag
  have hj : filepath.Join [env.logDir, (logName env tag t).1] =
      filepath.inDir (filepath.Clean env.logDir) (logName env tag t).1 :=
    filepath.Join_dir_plain _ _ hdir hp
  have h1 := create_result sys env tag t s
  have h2 := create_state sys env tag t s
  rw [hj] at h1 h2
  refine ⟨hp, ?_, h1, ?_⟩
  · rw [h2]
  · rw [h2]

/-- Witness for C1 amended: override "/var/log/app", production mode, tag
"INFO", on 2024-03-05; the path is "/var/log/app/LOG.2024-03-05T00:00:00Z". -/
theorem create_path_in_override_dir_witness :
    (create os.posix (envExample "/var/log/app".toList false 0) "INFO".toList
        (time.Unix 0 0 time.UTC) ⟨[], fsExample⟩).2.currentLogFile
      = "/var/log/app/LOG.2024-03-05T00:00:00Z".toList :=
  ((create_path_in_override_dir os.posix (envExample "/var/log/app".toList false 0)
    "INFO".toList (time.Unix 0 0 time.UTC) ⟨[], fsExample⟩ (by decide) (by decide)).2.1).trans
    (by decide)

/-! ## Production file and link names -/

theorem Now_eq (env : Env) (sec nsec : Int) (hclock : ∀ k, env.clock k = (sec, nsec)) (k : Nat) :
    env.Now k = time.Unix sec nsec env.local_ := by
  unfold Env.Now
  rw [hclock k]

theorem logName_production_fst (env : Env) (tag : GoString) (t : time.Time)
    (hd : env.debug = false) :
    (logName env tag t).1 = "LOG.".toList ++ (fmt.fmtInteger (env.Now 0).Year 4 false
        ++ "-".toList ++ fmt.fmtInteger (env.Now 1).Month 2 true ++ "-".toList
        ++ fmt.fmtInteger (env.Now 2).Day 2 true ++ "T00:00:00Z".toList) := by
  rw [logName_production env tag t hd]
  simp only [List.append_assoc]

theorem logName_production_snd (env : Env) (tag : GoString) (t : time.Time)
    (hd : env.debug = false) :
    (logName env tag t).2
      = "LOG.IWEF.".toList ++ ((env.Now 3).Round (time.Hour * 24)).Format := by
  rw [logName_production env tag t hd]

theorem logName_production_date (env : Env) (tag : GoString) (t : time.Time) (sec nsec : Int)
    (hd : env.debug = false) (hclock : ∀ k, env.clock k = (sec, nsec))
    (hy1 : 1000 ≤ (time.Unix sec nsec env.local_).Year)
    (hy2 : (time.Unix sec nsec env.local_).Year ≤ 9999) :
    (logName env tag t).1 = "LOG.".toList ++ dateZ (time.Unix sec nsec env.local_) := by
  rw [logName_production_fst env tag t hd, Now_eq env sec nsec hclock 0,
    Now_eq env sec nsec hclock 1, Now_eq env sec nsec hclock 2,
    fmt_date _ _ _ rfl rfl hy1 hy2]

/-- C2 as stated fails: at 2024-03-05 13:00:00 UTC in a process whose local
zone is 12 hours east of UTC the UTC date is 2024-03-05, but the file name is
"LOG.2024-03-06T00:00:00Z" and the path under the override "/var/log/app" is
"/var/log/app/LOG.2024-03-06T00:00:00Z". -/
theorem logName_production_not_utc_date :
    ((envExample "/var/log/app".toList false 43200).Now 0).UTC.Year = 2024 ∧
    ((envExample "/var/log/app".toList false 43200).Now 1).UTC.Month = 3 ∧
    ((envExample "/var/log/app".toList false 43200).Now 2).UTC.Day = 5 ∧
    (logName (envExample "/var/log/app".toList false 43200) "INFO".toList
        (time.Unix 0 0 time.UTC)).1 = "LOG.2024-03-06T00:00:00Z".toList ∧
    (logName (envExample "/var/log/app".toList false 43200) "INFO".toList
        (time.Unix 0 0 time.UTC)).1
      ≠ "LOG.".toList ++ dateZ ((envExample "/var/log/app".toList false 43200).Now 0).UTC ∧
    filepath.Join ["/var/log/app".toList,
        (logName (envExample "/var/log/app".toList false 43200) "INFO".toList
          (time.Unix 0 0 time.UTC)).1] = "/var/log/app/LOG.2024-03-06T00:00:00Z".toList := by
  decide

/-- C2 amended: in production mode, for every tag, when the clock readings of
the call are one instant whose year in the local time zone of the process is
between 1000 and 9999, the file name is "LOG." followed by the calendar date of
that instant in the local time zone, written YYYY-MM-DD with leading zeros,
followed by "T00:00:00Z". -/
theorem logName_production_name (env : Env) (tag : GoString) (t : time.Time) (sec nsec : Int)
    (hd : env.debug = false) (hclock : ∀ k, env.clock k = (sec, nsec))
    (hy1 : 1000 ≤ (time.Unix sec nsec env.local_).Year)
    (hy2 : (time.Unix sec nsec env.local_).Year ≤ 9999) :
    (logName env tag t).1 = "LOG.".toList ++ dateZ (time.Unix sec nsec env.local_) :=
  logName_production_date env tag t sec nsec hd hclock hy1 hy2

/-- Witness for C2 amended: 2024-03-05 13:00:00 UTC read in a zone 12 hours
east of UTC, where the date is 2024-03-06. -/
theorem logName_production_name_witness :
    (logName (envExample "/var/log/app".toList false 43200) "INFO".toList
        (time.Unix 0 0 time.UTC)).1 = "LOG.2024-03-06T00:00:00Z".toList :=
  (logName_production_name (envExample "/var/log/app".toList false 43200) "INFO".toList
    (time.Unix 0 0 time.UTC) 1709643600 5 rfl (fun _ => rfl) (by decide) (by decide)).trans
    (by decide)

/-- C3 as stated fails: at 2024-03-05 13:00:00 UTC, in the UTC zone, the file
name is "LOG.2024-03-05T00:00:00Z" and the link name is
"LOG.IWEF.2024-03-06T00:00:00Z", which does not start with
"LOG.IWEF.2024-03-05T"; in a zone 8 hours east of UTC the file name is the same
and the link name is "LOG.IWEF.2024-03-06T08:00:00Z". -/
theorem logName_production_link_other_date :
    logName (envExample "/tmp/".toList false 0) "INFO".toList (time.Unix 0 0 time.UTC)
      = ("LOG.2024-03-05T00:00:00Z".toList, "LOG.IWEF.2024-03-06T00:00:00Z".toList) ∧
    ¬ ("LOG.IWEF.2024-03-05T".toList <+:
      (logName (envExample "/tmp/".toList false 0) "INFO".toList (time.Unix 0 0 time.UTC)).2) ∧
    logName (envExample "/tmp/".toList false 28800) "INFO".toList (time.Unix 0 0 time.UTC)
      = ("LOG.2024-03-05T00:00:00Z".toList, "LOG.IWEF.2024-03-06T08:00:00Z".toList) := by
  decide

/-- C3 amended: in production mode, in every time zone, when the clock readings
of the call are one instant `T` between 1970 and the last day of 9999, and the
years of `T` and of the rounded instant `R` in the local zone are between 1000
and 9999, the file name is "LOG." followed by the local date of `T` and
"T00:00:00Z", and the link name is "LOG.IWEF." followed by the local date and
time of day YYYY-MM-DDTHH:MM:SS of `R` and "Z", where `R` is `T` rounded to the
nearest multiple of 24 hours: the midnight UTC before `T` when `T` is before
12:00:00 UTC, the next midnight UTC otherwise.  The date in the link name is the
date in the file name whenever `R` and `T` are on the same local day.  In the
UTC zone the time of day in the link name is 00:00:00 and the date is that of
`T` before 12:00:00 and that of the day after `T` from 12:00:00 on. -/
theorem logName_production_link (env : Env) (tag : GoString) (t : time.Time) (sec nsec : Int)
    (T R : time.Time)
    (hd : env.debug = false) (hclock : ∀ k, env.clock k = (sec, nsec))
    (hT : T = time.Unix sec nsec env.local_)
    (hR : R = time.Unix
      (if sec % 86400 < 43200 then sec - sec % 86400 else sec - sec % 86400 + 86400) 0
      env.local_)
    (h1 : 0 ≤ sec) (h2 : sec < 253402214400) (hn1 : 0 ≤ nsec) (hn2 : nsec < 1000000000)
    (hTy1 : 1000 ≤ T.Year) (hTy2 : T.Year ≤ 9999)
    (hRy1 : 1000 ≤ R.Year) (hRy2 : R.Year ≤ 9999) :
    (logName env tag t).1 = "LOG.".toList ++ datePart T ++ "T00:00:00Z".toList ∧
    (logName env tag t).2
      = "LOG.IWEF.".toList ++ datePart R ++ "T".toList ++ clockPart R ++ "Z".toList ∧
    (R.abs / 86400 = T.abs / 86400 → datePart R = datePart T) ∧
    ((∀ x, env.local_ x = 0) →
      clockPart R = "00:00:00".toList ∧
      datePart R = datePart (if sec % 86400 < 43200 then T
        else time.Unix (sec + 86400) nsec env.local_)) := by
  have hRound : (time.Unix sec nsec env.local_).Round (time.Hour * 24) = R := by
    rw [time.Round_day sec nsec env.local_ h1 (by omega) hn1 hn2, hR]
    by_cases hlt : sec % 86400 < 43200
    · rw [if_pos hlt, if_pos hlt]
    · rw [if_neg hlt, if_neg hlt]
  refine ⟨?_, ?_, datePart_congr R T, ?_⟩
  · have h := logName_production_date env tag t sec nsec hd hclock
      (by rw [← hT]; exact hTy1) (by rw [← hT]; exact hTy2)
    rw [h, ← hT, dateZ_eq_datePart, List.append_assoc]
  · rw [logName_production_snd env tag t hd, Now_eq env sec nsec hclock 3, hRound,
      time.Format_general R hRy1 hRy2]
    simp only [List.append_assoc]
  · intro hutc
    have hC := time.abs_Unix sec nsec env.local_ h1 (by omega) (hutc _)
    by_cases hlt : sec % 86400 < 43200
    · rw [if_pos hlt] at hR
      rw [if_pos hlt]
      have hM := time.abs_Unix (sec - sec % 86400) 0 env.local_ (by omega) (by omega) (hutc _)
      rw [← hR] at hM
      rw [← hT] at hC
      exact ⟨time.clockPart_midnight R (by omega), datePart_congr R T (by omega)⟩
    · rw [if_neg hlt] at hR
      rw [if_neg hlt]
      have hM := time.abs_Unix (sec - sec % 86400 + 86400) 0 env.local_ (by omega) (by omega)
        (hutc _)
      have hC2 := time.abs_Unix (sec + 86400) nsec env.local_ (by omega) (by omega) (hutc _)
      rw [← hR] at hM
      exact ⟨time.clockPart_midnight R (by omega), datePart_congr R _ (by omega)⟩

/-- Witness for C3 amended: 2024-03-05 13:00:00 UTC read in a zone 8 hours east
of UTC gives the link name of 2024-03-06 08:00:00. -/
theorem logName_production_link_witness :
    (logName (envExample "/tmp/".toList false 28800) "INFO".toList (time.Unix 0 0 time.UTC)).2
      = "LOG.IWEF.2024-03-06T08:00:00Z".toList :=
  ((logName_production_link (envExample "/tmp/".toList false 28800) "INFO".toList
    (time.Unix 0 0 time.UTC) 1709643600 5
    (time.Unix 1709643600 5 (fun _ => 28800)) (time.Unix 1709683200 0 (fun _ => 28800))
    rfl (fun _ => rfl) rfl rfl
    (by decide) (by decide) (by decide) (by decide)
    (by decide) (by decide) (by decide) (by decide)).2.1).trans (by decide)

/-! ## File creation and the file system -/

namespace os

theorem FS.Remove_data (name : GoString) (fs : FS) : (FS.Remove name fs).2.data = fs.data := by
  unfold FS.Remove
  split
  · rfl
  · split <;> rfl
  · rfl

theorem FS.Symlink_data (oldname newname : GoString) (fs : FS) :
    (FS.Symlink oldname newname fs).2.data = fs.data := by
  unfold FS.Symlink
  split
  · rfl
  · split <;> rfl

theorem FS.OpenFile_existing (name : GoString) (fs : FS) (ino : Nat)
    (h : fs.lookup name = some (.file ino)) :
    FS.OpenFile name (O_RDWR ||| O_CREATE ||| O_APPEND) 0o666 fs
      = (.ok ⟨name, ino, O_RDWR ||| O_CREATE ||| O_APPEND, 0⟩, fs) := by
  have hr : fs.resolve 41 name = some name := by
    show fs.resolve (40 + 1) name = some name
    unfold FS.resolve
    rw [h]
  unfold FS.OpenFile
  rw [hr]
  simp only [h]
  rw [if_neg (by decide), if_neg (by decide)]

theorem File.Write_append (f : File) (b : List UInt8) (fs : FS)
    (hf : f.flag = O_RDWR ||| O_CREATE ||| O_APPEND) :
    (f.Write b fs).2.2.data f.ino = fs.data f.ino ++ b := by
  unfold File.Write
  rw [hf, if_neg (by decide), if_pos (by decide)]
  simp

end os

/-- The state after a successful `create`, from the state after the open. -/
theorem create_world_ok (env : Env) (tag : GoString) (t : time.Time) (s : State os.FS)
    (fd : os.File) (w : os.FS)
    (h : os.FS.OpenFile (filepath.Join [env.logDir, (logName env tag t).1])
      (os.O_RDWR ||| os.O_CREATE ||| os.O_APPEND) 0o666 s.world = (.ok fd, w)) :
    (create os.posix env tag t s).1.f = some fd ∧
    (create os.posix env tag t s).2.world =
      if env.debug = true then
        (os.FS.Symlink (logName env tag t).1 (filepath.Join [env.logDir, (logName env tag t).2])
          (os.FS.Remove (filepath.Join [env.logDir, (logName env tag t).2]) w).2).2
      else w := by
  unfold create
  simp only []
  have h' : os.posix.OpenFile (filepath.Join [env.logDir, (logName env tag t).1])
      (os.O_RDWR ||| os.O_CREATE ||| os.O_APPEND) 0o666 s.world = (.ok fd, w) := h
  rw [h']
  simp only []
  split
  · exact ⟨rfl, rfl⟩
  · exact ⟨rfl, rfl⟩

/-- C6: when a regular file exists at the path that `create` derives, a
successful `create` opens it with the flags `O_RDWR|O_CREATE|O_APPEND`, without
`O_TRUNC`, leaves its bytes as they were, and bytes written through the
returned file are added after them. -/
theorem create_keeps_existing_bytes (env : Env) (tag : GoString) (t : time.Time)
    (s : State os.FS) (ino : Nat)
    (hfile : s.world.lookup (filepath.Join [env.logDir, (logName env tag t).1])
      = some (.file ino))
    (_hok : (create os.posix env tag t s).1.err = none) :
    (create os.posix env tag t s).2.world.data ino = s.world.data ino ∧
    ∃ fd : os.File, (create os.posix env tag t s).1.f = some fd ∧ fd.ino = ino ∧
      fd.flag = os.O_RDWR ||| os.O_CREATE ||| os.O_APPEND ∧
      fd.flag &&& os.O_APPEND ≠ 0 ∧ fd.flag &&& os.O_CREATE ≠ 0 ∧ fd.flag &&& os.O_TRUNC = 0 ∧
      ∀ b : List UInt8,
        (fd.Write b (create os.posix env tag t s).2.world).2.2.data ino = s.world.data ino ++ b := by
  have ho := os.FS.OpenFile_existing _ s.world ino hfile
  obtain ⟨hf, hw⟩ := create_world_ok env tag t s _ _ ho
  have hdata : (create os.posix env tag t s).2.world.data = s.world.data := by
    rw [hw]
    split
    · rw [os.FS.Symlink_data, os.FS.Remove_data]
    · rfl
  have f1 : (os.O_RDWR ||| os.O_CREATE ||| os.O_APPEND) &&& os.O_APPEND ≠ 0 := by decide
  have f2 : (os.O_RDWR ||| os.O_CREATE ||| os.O_APPEND) &&& os.O_CREATE ≠ 0 := by decide
  have f3 : (os.O_RDWR ||| os.O_CREATE ||| os.O_APPEND) &&& os.O_TRUNC = 0 := by decide
  refine ⟨by rw [hdata], _, hf, rfl, rfl, f1, f2, f3, ?_⟩
  intro b
  have := os.File.Write_append
    ⟨filepath.Join [env.logDir, (logName env tag t).1], ino,
      os.O_RDWR ||| os.O_CREATE ||| os.O_APPEND, 0⟩ b
    (create os.posix env tag t s).2.world rfl
  rw [this, hdata]

/-- Witness for C6: "/tmp/DEBUGLOGS.INFO" exists with the bytes 1, 2, and is
reopened in debug mode; the bytes 3, 4 written to it come after 1, 2. -/
theorem create_keeps_existing_bytes_witness :
    ∃ fd : os.File,
      (create os.posix (envExample "/tmp/".toList true 0) "INFO".toList (time.Unix 0 0 time.UTC)
        ⟨[], ⟨[("/tmp/DEBUGLOGS.INFO".toList, .file 7), ("/tmp".toList, .dir)],
          fun _ => [1, 2], 8⟩⟩).1.f = some fd ∧
      (fd.Write [3, 4]
        (create os.posix (envExample "/tmp/".toList true 0) "INFO".toList
          (time.Unix 0 0 time.UTC)
          ⟨[], ⟨[("/tmp/DEBUGLOGS.INFO".toList, .file 7), ("/tmp".toList, .dir)],
            fun _ => [1, 2], 8⟩⟩).2.world).2.2.data 7 = [1, 2, 3, 4] :=
  match (create_keeps_existing_bytes (envExample "/tmp/".toList true 0) "INFO".toList
      (time.Unix 0 0 time.UTC)
      ⟨[], ⟨[("/tmp/DEBUGLOGS.INFO".toList, .file 7), ("/tmp".toList, .dir)],
        fun _ => [1, 2], 8⟩⟩ 7 (by decide) (by decide)).2 with
  | ⟨fd, h1, _, _, _, _, _, h8⟩ => ⟨fd, h1, h8 [3, 4]⟩

/-- C7 at the failing input: in production mode, with the override "/tmp/"
and the tag "INFO", `create` succeeds and makes no symbolic link: afterwards
the file system holds the new log file and the two directories, and nothing at
the link path "/tmp/LOG.IWEF.2024-03-06T00:00:00Z".  In debug mode the same call
leaves a link, "/tmp/DEBUG.prog", whose target is the log file name. -/
theorem create_production_no_symlink :
    (create os.posix (envExample "/tmp/".toList false 0) "INFO".toList (time.Unix 0 0 time.UTC)
      ⟨[], fsExample⟩).1.err = none ∧
    filepath.Join ["/tmp/".toList,
        (logName (envExample "/tmp/".toList false 0) "INFO".toList
          (time.Unix 0 0 time.UTC)).2] = "/tmp/LOG.IWEF.2024-03-06T00:00:00Z".toList ∧
    (create os.posix (envExample "/tmp/".toList false 0) "INFO".toList (time.Unix 0 0 time.UTC)
      ⟨[], fsExample⟩).2.world.lookup "/tmp/LOG.IWEF.2024-03-06T00:00:00Z".toList = none ∧
    (create os.posix (envExample "/tmp/".toList false 0) "INFO".toList (time.Unix 0 0 time.UTC)
      ⟨[], fsExample⟩).2.world.entries =
        [("/tmp/LOG.2024-03-05T00:00:00Z".toList, .file 0), ("/tmp".toList, .dir),
          (".".toList, .dir)] ∧
    (create os.posix (envExample "/tmp/".toList true 0) "INFO".toList (time.Unix 0 0 time.UTC)
      ⟨[], fsExample⟩).2.world.lookup "/tmp/DEBUG.prog".toList
        = some (.symlink "DEBUGLOGS.INFO".toList) := by
  decide

end Glog
